import Mathlib

/-!
# Verification of the ChatBotMusicSpotify frontend

Shallow embedding of the TypeScript sources of the ChatBotMusicSpotify
repository (a React chat frontend for a music-recommendation assistant),
together with proofs about the embedded operations.

Conventions of the embedding:

* JavaScript strings are modelled as `List Char` (sequences of characters;
  the sources only manipulate BMP text, where JS UTF-16 units and
  characters coincide).
* `Date.now()`, `Math.random()` based identifier suffixes, and the parsed
  JSON bodies of `fetch` responses are passed as explicit parameters; a
  single handler run observes one `Date.now()` tick, matching the
  granularity of the claims.
* `fetch` outcomes are an inductive: either the promise rejects (network
  failure) or an HTTP response arrives with a status and a body whose
  `json()` parse may itself fail.
* Fallible JS code (functions that may `throw`) is embedded in `Except`;
  an `Except.error` result is an exception escaping the function.
* React `useState` semantics: an event handler reads the state snapshot of
  the render that created it; `setX` calls update the live store but never
  the snapshot captured by the handler's (and its callbacks') closures.
-/

/-! ## JS string primitives -/

/-- Whitespace as used by the JS `\s` class and `String.trim` (the ASCII
part plus NBSP; the rare unicode space separators do not occur in the
repository's data). -/
def jsWhitespace (c : Char) : Bool :=
  c == ' ' || c == '\t' || c == '\n' || c == '\r' ||
  c == Char.ofNat 11 || c == Char.ofNat 12 || c == Char.ofNat 160

/-- Remove trailing whitespace (the right half of JS `String.trim`). -/
def trimRight : List Char → List Char
  | [] => []
  | c :: rest =>
    let r := trimRight rest
    if r = [] ∧ jsWhitespace c then [] else c :: r

/-- JS `String.trim`: strip leading and trailing whitespace. -/
def jsTrim (l : List Char) : List Char :=
  trimRight (l.dropWhile jsWhitespace)

/-- JS `String.toLowerCase`, restricted to the simple one-to-one case
mapping (sufficient for the repository's ASCII terms). -/
def lc (c : Char) : Char := c.toLower

/-- Case-insensitive "the literal `pat` starts `l`". -/
def ciStartsWith (pat l : List Char) : Bool :=
  (l.take pat.length).map lc == pat.map lc

/-- Case-insensitive substring containment:
`s.toLowerCase().includes(pat.toLowerCase())`, the containment notion of
`containsExcludedTerms` and of the claim's "contains". -/
def occursCI (pat : List Char) : List Char → Bool
  | [] => ciStartsWith pat []
  | c :: rest => ciStartsWith pat (c :: rest) || occursCI pat rest

/-- The line terminators a JS regex `.` does not match. -/
def jsLineTerminator (c : Char) : Bool :=
  c == '\n' || c == '\r' || c == Char.ofNat 0x2028 || c == Char.ofNat 0x2029

/-- Regex metacharacters other than the dot.  A term containing none of
these (dots allowed) builds a `RegExp` that is a fixed-length pattern of
literal characters and single-character wildcards, which is the class
this embedding models faithfully. -/
def regexSpecialNonDot (c : Char) : Bool :=
  c == '^' || c == '$' || c == '*' || c == '+' || c == '?' || c == '(' ||
  c == ')' || c == '[' || c == ']' || c == '|' || c == Char.ofNat 92 ||
  c == Char.ofNat 123 || c == Char.ofNat 125

/-- Does the pattern of `new RegExp(pat, 'i')` match at the head of `l`,
for a `pat` whose only metacharacter is the dot: each `.` consumes one
non-line-terminator character, every other pattern character matches
case-insensitively. -/
def reDotStartsWith (pat l : List Char) : Bool :=
  match pat, l with
  | [], _ => true
  | _ :: _, [] => false
  | p :: ps, c :: cs =>
    (if p = '.' then !jsLineTerminator c else lc p == lc c) && reDotStartsWith ps cs

/-- JS `new RegExp(pat, 'gi').test(s)` for a dot-literal pattern: does it
match anywhere? -/
def occursRe (pat : List Char) : List Char → Bool
  | [] => reDotStartsWith pat []
  | c :: rest => reDotStartsWith pat (c :: rest) || occursRe pat rest

/-- Case-sensitive occurrence of `pat` anywhere in `s` (JS
`String.includes`). -/
def occursS (pat : List Char) : List Char → Bool
  | [] => pat.isPrefixOf []
  | c :: rest => pat.isPrefixOf (c :: rest) || occursS pat rest

/-- One pass of JS `str.replace(/\s+/g, ' ')`: the flag records whether the
previous character was inside a whitespace run (already emitted as one
space). -/
def collapseWsAux : Bool → List Char → List Char
  | _, [] => []
  | prevWs, c :: rest =>
    if jsWhitespace c then
      if prevWs then collapseWsAux true rest
      else ' ' :: collapseWsAux true rest
    else c :: collapseWsAux false rest

/-- JS `str.replace(/\s+/g, ' ')`: every maximal whitespace run becomes a
single space. -/
def collapseWs (l : List Char) : List Char := collapseWsAux false l

/-- The scan of JS `str.replace(pat, repl)` with a global literal pattern:
leftmost, non-overlapping replacement in one pass.  The `fuel` argument is
only a structural-termination device (each step consumes one list cell and
one fuel unit, and a match consumes at least as many cells as fuel units),
so with `fuel = length` the out-of-fuel case is never reached. -/
def replaceAllGo (pat repl : List Char) : Nat → List Char → List Char
  | _, [] => []
  | 0, l => l
  | fuel + 1, c :: rest =>
    if pat ≠ [] ∧ pat.isPrefixOf (c :: rest) then
      repl ++ replaceAllGo pat repl fuel (rest.drop (pat.length - 1))
    else c :: replaceAllGo pat repl fuel rest

/-- JS `str.replace(pat, repl)` with a global literal pattern.  An empty
pattern leaves the string unchanged (the repository never replaces an
empty pattern). -/
def replaceAll (pat repl s : List Char) : List Char :=
  replaceAllGo pat repl s.length s

/-- Scan of the regex deletion, fuelled like `replaceAllGo`.  A dot-literal
pattern matches a span of exactly `pat.length` characters, so the scan
skips that many on a hit. -/
def replaceAllReGo (pat : List Char) : Nat → List Char → List Char
  | _, [] => []
  | 0, l => l
  | fuel + 1, c :: rest =>
    if pat ≠ [] ∧ reDotStartsWith pat (c :: rest) then
      replaceAllReGo pat fuel (rest.drop (pat.length - 1))
    else c :: replaceAllReGo pat fuel rest

/-- JS `str.replace(new RegExp(pat, 'gi'), '')` for a dot-literal pattern:
delete every (leftmost, non-overlapping) match. -/
def replaceAllRe (pat s : List Char) : List Char :=
  replaceAllReGo pat s.length s

/-- JS `a || b` on an optional string: `undefined`/`null` and the empty
string are falsy. -/
def jsOrStr (o : Option (List Char)) (d : List Char) : List Char :=
  match o with
  | some s => if s = [] then d else s
  | none => d

/-- JS truthiness test for an optional string value. -/
def jsFalsy (o : Option (List Char)) : Bool :=
  match o with
  | some s => s == []
  | none => true

/-- JS `x || undefined` on a nullable string (used when a `string | null`
state value is passed to a `string | undefined` parameter). -/
def jsOrUndef (o : Option (List Char)) : Option (List Char) :=
  match o with
  | some s => if s = [] then none else some s
  | none => none

/-! ## Shared data model (`src/types/index.ts`) -/

inductive MessageSender where
  | user
  | ai
deriving DecidableEq

/-- Model of `ChatMessageContent` (the hook also writes an optional `sessionId`
field onto its messages). -/
structure ChatMessageContent where
  id : List Char
  sender : MessageSender
  text : List Char
  timestamp : Nat
  sessionId : Option (List Char) := none
deriving DecidableEq

/-- Model of `ChatSession` as used by `useChatSession`'s save path. -/
structure ChatSession where
  id : List Char
  sessionId : List Char
  title : List Char
  createdAt : Nat
  updatedAt : Nat
  messages : List ChatMessageContent
deriving DecidableEq

/-- Model of `ApiResponse<T>`. -/
structure ApiResponse (α : Type) where
  success : Bool
  data : Option α := none
  error : Option (List Char) := none
deriving DecidableEq

/-! ## The `fetch` boundary -/

/-- A parsed JSON body: the `error` field the HTTP wrappers consult, plus
the typed payload. -/
structure JsonBody (α : Type) where
  errorField : Option (List Char) := none
  payload : α
deriving DecidableEq

/-- Outcome of one `fetch` call: the promise rejects (network/transport
failure), or an HTTP response arrives; `response.json()` may itself fail
on a malformed body. -/
inductive FetchOutcome (α : Type) where
  | networkError (msg : List Char)
  | httpResponse (status : Nat) (body : Except (List Char) (JsonBody α))

/-- Model of `response.ok`: status in the 2xx range. -/
def statusOk (s : Nat) : Bool := 200 ≤ s && s < 300

/-- Is this outcome one of the failures of the error taxonomy (transport
failure, non-2xx status, malformed body)? -/
def fetchFailed {α : Type} : FetchOutcome α → Prop
  | .networkError _ => True
  | .httpResponse status body => ¬ statusOk status ∨ ∃ m, body = .error m

/-! ## `BFFChatService` (src/src/services/chatService.ts) -/

namespace BFFChatService

/-- Timing block of a `ChatResponse`. -/
structure ChatSteps where
  validationTimeMs : Nat := 0
  sqlGenerationTimeMs : Nat := 0
  databaseQueryTimeMs : Nat := 0
  naturalResponseTimeMs : Nat := 0
deriving DecidableEq

/-- Model of `ChatResponse`: the BFF's answer to `api/AI/process-question`. -/
structure ChatResponse where
  statusCode : Int
  response : List Char
  error : List Char
  isSuccess : Bool
  contextualizedQuestions : List Char
  isContextualized : Bool := false
  validationResults : List Char := []
  classificationResults : List Char := []
  databaseResults : List Char := []
  naturalResponse : List Char
  processingTimeMs : Nat := 0
  steps : ChatSteps := {}
  sessionId : Option (List Char)
deriving DecidableEq

/-- The private `post<T>` wrapper (chatService.ts lines 78-110): every
failure inside the `try` is caught and turned into a
`{success: false, error}` result; the function itself never throws. -/
def post {α : Type} (outcome : FetchOutcome α) : ApiResponse α :=
  match outcome with
  | .networkError msg => ⟨false, none, some msg⟩
  | .httpResponse status body =>
    match body with
    | .error parseMsg => ⟨false, none, some parseMsg⟩
    | .ok b =>
      if ¬ statusOk status then
        ⟨false, none,
          some (jsOrStr b.errorField
            ("HTTP error! status: " ++ toString status).toList)⟩
      else ⟨true, some b.payload, none⟩

/-- The private `get<T>` wrapper (lines 46-76); identical conversion
behaviour to `post`. -/
def get {α : Type} (outcome : FetchOutcome α) : ApiResponse α :=
  match outcome with
  | .networkError msg => ⟨false, none, some msg⟩
  | .httpResponse status body =>
    match body with
    | .error parseMsg => ⟨false, none, some parseMsg⟩
    | .ok b =>
      if ¬ statusOk status then
        ⟨false, none,
          some (jsOrStr b.errorField
            ("HTTP error! status: " ++ toString status).toList)⟩
      else ⟨true, some b.payload, none⟩

/-- The private `delete<T>` wrapper (lines 112-144); identical conversion
behaviour to `post`. -/
def deleteReq {α : Type} (outcome : FetchOutcome α) : ApiResponse α :=
  match outcome with
  | .networkError msg => ⟨false, none, some msg⟩
  | .httpResponse status body =>
    match body with
    | .error parseMsg => ⟨false, none, some parseMsg⟩
    | .ok b =>
      if ¬ statusOk status then
        ⟨false, none,
          some (jsOrStr b.errorField
            ("HTTP error! status: " ++ toString status).toList)⟩
      else ⟨true, some b.payload, none⟩

/-- Body shape of a delete response. -/
structure DeleteResult where
  statusCode : Int
  message : List Char
  error : List Char
deriving DecidableEq

/-- Model of `deleteConversation(sessionId)` (lines 219-222): a straight `delete`
call on `api/Chat/conversation/{sessionId}`. -/
def deleteConversation (outcome : FetchOutcome DeleteResult) :
    ApiResponse DeleteResult :=
  deleteReq outcome

/-- The service's private `generateSessionId` (lines 182-184):
`Date.now().toString() + '-' + random suffix`. -/
def generateSessionId (now : Nat) (rand : List Char) : List Char :=
  (toString now).toList ++ ['-'] ++ rand

/-- The patching step inside `sendMessage` (lines 170-173): if the body
carries no session id, install `sessionId || generateSessionId()`. -/
def patchSessionId (reqSessionId : Option (List Char)) (now : Nat)
    (rand : List Char) (data : ChatResponse) : ChatResponse :=
  if jsFalsy data.sessionId then
    { data with sessionId := some (jsOrStr reqSessionId (generateSessionId now rand)) }
  else data

/-- Model of `sendMessage` (lines 146-177): POST the question, then re-check the
body's own `statusCode`, then guarantee a session id on the body. -/
def sendMessage (reqSessionId : Option (List Char)) (now : Nat)
    (rand : List Char) (outcome : FetchOutcome ChatResponse) :
    ApiResponse ChatResponse :=
  let response := post outcome
  match response.success, response.data with
  | true, some data =>
    if data.statusCode < 200 ∨ 300 ≤ data.statusCode then
      ⟨false, none,
        some (jsOrStr (if data.error = [] then none else some data.error)
          ("Backend returned status " ++ toString data.statusCode).toList)⟩
    else
      { response with data := some (patchSessionId reqSessionId now rand data) }
  | _, _ => response

/-- The apology shown when no response field is usable. -/
def fallbackApology : List Char :=
  "Lo siento, no pude generar una respuesta apropiada. ¿Podrías reformular tu pregunta?".toList

/-- The response-text selection of `sendMessageStreamSimulated`
(lines 387-401): first usable field among `naturalResponse`, `response`,
`contextualizedQuestions`, else a fixed apology. -/
def extractFullResponse (responseData : ChatResponse) : List Char :=
  if jsTrim responseData.naturalResponse ≠ [] ∧ responseData.naturalResponse ≠ [] then
    responseData.naturalResponse
  else if jsTrim responseData.response ≠ [] ∧ responseData.response ≠ [] then
    responseData.response
  else if jsTrim responseData.contextualizedQuestions ≠ [] ∧
      responseData.contextualizedQuestions ≠ [] then
    responseData.contextualizedQuestions
  else fallbackApology

/-- Model of `sendMessageStreamSimulated` (lines 353-423), reduced to its outcome:
either the error handed to `onError`, or the `(fullResponse, sessionId)`
pair handed to `onComplete` (the intermediate `onChunk` reveals accumulate
to exactly `fullResponse`). -/
def simulatedResult (reqSessionId : Option (List Char)) (now : Nat)
    (rand : List Char) (outcome : FetchOutcome ChatResponse) :
    Except (List Char) (List Char × List Char) :=
  let response := sendMessage reqSessionId now rand outcome
  if ¬ response.success then
    .error (jsOrStr response.error "Failed to get response from chat service".toList)
  else
    match response.data with
    | none => .error "No data received from chat service".toList
    | some responseData =>
      if responseData.statusCode < 200 ∨ 300 ≤ responseData.statusCode then
        .error (jsOrStr (if responseData.error = [] then none else some responseData.error)
          ("HTTP " ++ toString responseData.statusCode ++ ": Request failed").toList)
      else
        let fullResponse := extractFullResponse responseData
        let newSessionId := jsOrStr responseData.sessionId
          (jsOrStr reqSessionId (generateSessionId now rand))
        .ok (fullResponse, newSessionId)

end BFFChatService

/-! ## `useChatSession` (src/src/hooks/useChatSession.ts) -/

namespace UseChatSession

/-- The hook's state cells. -/
structure ChatState where
  messages : List ChatMessageContent
  isLoading : Bool
  error : Option (List Char)
  currentSessionId : Option (List Char)
  sessionTitle : List Char
deriving DecidableEq

/-- Model of `generateSessionId`: `Date.now().toString() + '-' + random suffix`. -/
def generateSessionId (now : Nat) (rand : List Char) : List Char :=
  (toString now).toList ++ ['-'] ++ rand

/-- The class `[.!?]` of the title's sentence split. -/
def isSentenceTerminator (c : Char) : Bool := c == '.' || c == '!' || c == '?'

/-- Model of `generateSessionTitle` (lines 48-61): the session title derived from
the first user message. -/
def generateSessionTitle (firstMessage : List Char) : List Char :=
  let cleaned := jsTrim firstMessage
  if cleaned.length ≤ 50 then cleaned
  else
    -- `cleaned.split(/[.!?]+/)[0]` is the segment before the first
    -- sentence terminator (the whole string when there is none); the JS
    -- guard `sentences[0] &&` is the non-emptiness test.
    let first := cleaned.takeWhile (fun c => !isSentenceTerminator c)
    if first ≠ [] ∧ first.length ≤ 50 then jsTrim first
    else cleaned.take 47 ++ "...".toList

/-- The initial title set by `initChat`/`startNewChat`. -/
def defaultTitle : List Char := "Nueva Conversación".toList

/-- The arguments of the persistence performed by `saveCurrentSession`
(a `saveConversation` into local storage, plus a BFF backup send using the
same session id). -/
structure SaveCall where
  sessionId : List Char
  title : List Char
  createdAt : Nat
  updatedAt : Nat
  messages : List ChatMessageContent
deriving DecidableEq

/-- Model of `saveCurrentSession` (lines 63-92).  The function is a `useCallback`
over `[currentSessionId, sessionTitle, ...]`: the session id and title it
reads are the snapshot of the render that created it, passed here as
`closureSessionId`/`closureTitle`.  Returns the persistence call it
issues, or `none` when it returns early without saving. -/
def saveCurrentSession (closureSessionId : Option (List Char))
    (closureTitle : List Char) (sessionMessages : List ChatMessageContent)
    (now : Nat) : Option SaveCall :=
  if jsFalsy closureSessionId ∨ sessionMessages = [] then none
  else
    let sid := match closureSessionId with
      | some s => s
      | none => []
    -- `sessionMessages[0]?.timestamp || Date.now()`
    let created := match sessionMessages.head? with
      | some m => if m.timestamp = 0 then now else m.timestamp
      | none => now
    some ⟨sid, closureTitle, created, now, sessionMessages⟩

/-- The user message built by `handleSendMessage` (lines 139-145). -/
def mkUserMessage (s : ChatState) (inputText : List Char) (now : Nat) :
    ChatMessageContent :=
  { id := (toString now).toList ++ "-user".toList
    sender := .user
    text := inputText
    timestamp := now
    sessionId := jsOrUndef s.currentSessionId }

/-- The empty AI placeholder message (lines 156-163). -/
def mkPlaceholderMessage (s : ChatState) (now : Nat) : ChatMessageContent :=
  { id := (toString now).toList ++ "-ai".toList
    sender := .ai
    text := []
    timestamp := now
    sessionId := jsOrUndef s.currentSessionId }

/-- Model of `handleSendMessage` up to (and excluding) the `await` of
`sendMessageStream` (lines 136-166): the state visible when the gateway
call is issued.  On a blank input or while loading, the handler returns at
line 137 and the state is untouched. -/
def handleSendPre (s : ChatState) (inputText : List Char) (now : Nat) : ChatState :=
  if jsTrim inputText = [] ∨ s.isLoading then s
  else
    let userMessage := mkUserMessage s inputText now
    let newMessages := s.messages ++ [userMessage]
    let title :=
      if s.messages.length = 1 ∧ s.sessionTitle = defaultTitle then
        generateSessionTitle inputText
      else s.sessionTitle
    { messages := newMessages ++ [mkPlaceholderMessage s now]
      isLoading := true
      error := none
      currentSessionId := s.currentSessionId
      sessionTitle := title }

/-- The apology text installed by the `onError` callback (line 192). -/
def onErrorApology : List Char :=
  "Lo siento, encontré un error. Por favor, inténtalo de nuevo.".toList

/-- A full run of `handleSendMessage` (lines 136-207) against one gateway
outcome.  Returns the final state, the persistence call issued by the
completion callback (if any), and the session id handed to `onComplete`
(`none` when the error callback ran instead).

The completion callback reads `messagesWithPlaceholder`,
`saveCurrentSession`, `currentSessionId` and `sessionTitle` from the
closure of the render that started the send, so the save uses the
pre-send session id and title; the `setMessages` calls use functional
updates and land on the live store. -/
def handleSend (s : ChatState) (inputText : List Char) (now : Nat)
    (rand : List Char) (outcome : FetchOutcome BFFChatService.ChatResponse) :
    ChatState × Option SaveCall × Option (List Char) :=
  if jsTrim inputText = [] ∨ s.isLoading then (s, none, none)
  else
    let s1 := handleSendPre s inputText now
    let placeholderId := (toString now).toList ++ "-ai".toList
    match BFFChatService.simulatedResult (jsOrUndef s.currentSessionId) now rand outcome with
    | .ok (fullResponse, returnedSessionId) =>
      -- the last `onChunk` has revealed the whole text into the placeholder
      let stateMessages := s1.messages.map (fun m =>
        if m.id = placeholderId then { m with text := fullResponse } else m)
      -- `finalMessages` built by `onComplete` from `messagesWithPlaceholder`
      let finalMessages := s1.messages.map (fun m =>
        if m.id = placeholderId then
          { m with text := fullResponse, sessionId := some returnedSessionId }
        else m)
      let s2 := { s1 with
        isLoading := false
        currentSessionId := some returnedSessionId
        messages := stateMessages }
      (s2, saveCurrentSession s.currentSessionId s.sessionTitle finalMessages now,
        some returnedSessionId)
    | .error e =>
      let s2 := { s1 with
        error := some (jsOrStr (some e) "No se pudo obtener respuesta de la IA.".toList)
        messages := s1.messages.map (fun m =>
          if m.id = placeholderId then { m with text := onErrorApology } else m)
        isLoading := false }
      (s2, none, none)

end UseChatSession

/-! ## `ExcludedTermsService`, backend variant
(src/src/services/authService.ts, second module: the backend-only
excluded-terms service) -/

namespace ExcludedTermsBackend

inductive Category where
  | artist | genre | song | album | keyword | custom
deriving DecidableEq

/-- Frontend `ExcludedTerm`. -/
structure ExcludedTerm where
  id : List Char
  term : List Char
  category : Category
  reason : Option (List Char) := none
  isActive : Bool
  createdAt : Nat
  updatedAt : Nat
deriving DecidableEq

/-- Result shape of `validateTerm`. -/
structure ValidationResult where
  isValid : Bool
  error : Option (List Char) := none
deriving DecidableEq

/-- Character class of `/^[a-zA-Z0-9\s\-_.,!?áéíóúñü]+$/i` (the `i` flag
also admits the uppercase accented letters). -/
def validChar (c : Char) : Bool :=
  c.isAlpha || c.isDigit || jsWhitespace c ||
  c == '-' || c == '_' || c == '.' || c == ',' || c == '!' || c == '?' ||
  c == 'á' || c == 'é' || c == 'í' || c == 'ó' || c == 'ú' || c == 'ñ' || c == 'ü' ||
  c == 'Á' || c == 'É' || c == 'Í' || c == 'Ó' || c == 'Ú' || c == 'Ñ' || c == 'Ü'

/-- Model of `validateTerm` (authService.ts lines 623-645). -/
def validateTerm (term : List Char) : ValidationResult :=
  let trimmedTerm := jsTrim term
  if trimmedTerm = [] then
    ⟨false, some "El término no puede estar vacío".toList⟩
  else if trimmedTerm.length < 2 then
    ⟨false, some "El término debe tener al menos 2 caracteres".toList⟩
  else if trimmedTerm.length > 100 then
    ⟨false, some "El término no puede tener más de 100 caracteres".toList⟩
  else if ¬ trimmedTerm.all validChar then
    ⟨false, some "El término contiene caracteres no válidos".toList⟩
  else ⟨true, none⟩

/-- One iteration of the `filterText` loop (authService.ts lines
503-509): test the term's case-insensitive regex, and on a hit delete its
occurrences, collapse whitespace, trim, and record the term. -/
def filterStep (acc : List Char × List (List Char)) (t : ExcludedTerm) :
    List Char × List (List Char) :=
  if occursRe t.term acc.1 then
    (jsTrim (collapseWs (replaceAllRe t.term acc.1)), acc.2 ++ [t.term])
  else acc

/-- Model of `filterText` (authService.ts lines 494-518), with the terms already
fetched from the backend (`getUserTerms` is the HTTP boundary).  Each
active term's `new RegExp(term, 'gi')` is modelled by `occursRe` /
`replaceAllRe`, exact for terms whose only regex metacharacter is the
dot. -/
def filterText (terms : List ExcludedTerm) (text : List Char) :
    List Char × List (List Char) :=
  (terms.filter (·.isActive)).foldl filterStep (text, [])

/-- Model of `BackendExcludedTerm`: the wire format of a term. -/
structure BackendExcludedTerm where
  id : Int
  firebaseUserId : List Char
  term : List Char
  category : List Char
  isActive : Bool
  createdAt : Option (List Char) := none
  updatedAt : Option (List Char) := none
deriving DecidableEq

/-- The JSON shapes `parseBackendResponse` can receive. -/
inductive BackendTermsJson where
  | array (terms : List BackendExcludedTerm)
  | wrapper (data excludedTerms terms : Option (List BackendExcludedTerm))
  | other
deriving DecidableEq

/-- Model of `parseBackendResponse` (lines 211-238): direct array, else the first
array among the `data`, `excludedTerms`, `terms` keys, else `[]`. -/
def parseBackendResponse : BackendTermsJson → List BackendExcludedTerm
  | .array ts => ts
  | .wrapper d e t =>
    match d with
    | some ts => ts
    | none =>
      match e with
      | some ts => ts
      | none =>
        match t with
        | some ts => ts
        | none => []
  | .other => []

/-- Model of `categoryMapping` (lines 175-188) with its `|| 'custom'` fallback. -/
def categoryMapping (s : List Char) : Category :=
  if s = "Artist".toList ∨ s = "artist".toList then .artist
  else if s = "Genre".toList ∨ s = "genre".toList then .genre
  else if s = "Song".toList ∨ s = "song".toList then .song
  else if s = "Album".toList ∨ s = "album".toList then .album
  else if s = "Keyword".toList ∨ s = "keyword".toList then .keyword
  else if s = "Custom".toList ∨ s = "custom".toList then .custom
  else .custom

/-- Model of `convertBackendTerm` (lines 193-206).  `new Date(s).getTime()` is the
external date parser, passed in as `dateMillis`. -/
def convertBackendTerm (now : Nat) (dateMillis : List Char → Nat)
    (backendTerm : BackendExcludedTerm) : ExcludedTerm :=
  let createdAt := match backendTerm.createdAt with
    | some s => dateMillis s
    | none => now
  let updatedAt := match backendTerm.updatedAt with
    | some s => dateMillis s
    | none => createdAt
  { id := (toString backendTerm.id).toList
    term := backendTerm.term
    category := categoryMapping backendTerm.category
    isActive := backendTerm.isActive
    createdAt := createdAt
    updatedAt := updatedAt
    reason := none }

/-- Model of `getUserTerms` (lines 243-276): unlike the `ApiResponse` wrappers, its
`catch` logs and RETHROWS, so every fetch failure escapes as an exception
(`Except.error`).  The status is checked before the body is parsed. -/
def getUserTerms (now : Nat) (dateMillis : List Char → Nat)
    (outcome : FetchOutcome BackendTermsJson) :
    Except (List Char) (List ExcludedTerm) :=
  match outcome with
  | .networkError msg => .error msg
  | .httpResponse status body =>
    if ¬ statusOk status then
      .error ("Backend error: " ++ toString status).toList
    else
      match body with
      | .error parseMsg => .error parseMsg
      | .ok b =>
        .ok ((parseBackendResponse b.payload).map (convertBackendTerm now dateMillis))

end ExcludedTermsBackend

/-! ## `ExcludedTermsService`, local (IndexedDB) variant
(src/src/services/authService.ts, third module) -/

namespace ExcludedTermsLocal

/-- The local service's per-user configuration record. -/
structure ExcludedTermsConfig where
  userId : List Char
  terms : List ExcludedTermsBackend.ExcludedTerm
  globallyExcluded : List (List Char)
  isEnabled : Bool
  lastUpdated : Nat
deriving DecidableEq

/-- Model of `validateTerm` of the local variant (50-character maximum,
`/^[a-zA-Z0-9\s\-']+$/`). -/
def validateTerm (term : List Char) : ExcludedTermsBackend.ValidationResult :=
  let trimmed := jsTrim term
  if trimmed = [] then
    ⟨false, some "El término no puede estar vacío".toList⟩
  else if trimmed.length < 2 then
    ⟨false, some "El término debe tener al menos 2 caracteres".toList⟩
  else if trimmed.length > 50 then
    ⟨false, some "El término no puede tener más de 50 caracteres".toList⟩
  else if ¬ trimmed.all (fun c =>
      c.isAlpha || c.isDigit || jsWhitespace c || c == '-' || c == Char.ofNat 39) then
    ⟨false, some "El término contiene caracteres no válidos".toList⟩
  else ⟨true, none⟩

/-- Model of `[...new Set(l)]`: deduplicate keeping first occurrences. -/
def jsSetDedup (l : List (List Char)) : List (List Char) :=
  l.foldl (fun acc x => if x ∈ acc then acc else acc ++ [x]) []

/-- Model of `getActiveExcludedTerms`: lower-cased active user terms plus
lower-cased globally excluded terms, deduplicated; empty when the feature
is disabled. -/
def getActiveExcludedTerms (config : ExcludedTermsConfig) : List (List Char) :=
  if ¬ config.isEnabled then []
  else jsSetDedup
    (((config.terms.filter (·.isActive)).map (fun t => t.term.map lc)) ++
      config.globallyExcluded.map (·.map lc))

/-- JS `\w`. -/
def wordChar (c : Char) : Bool := c.isAlpha || c.isDigit || c == '_'

def isWordOpt : Option Char → Bool
  | some c => wordChar c
  | none => false

/-- A `\b` assertion between two (optional) neighbouring characters. -/
def boundaryOk (a b : Option Char) : Bool := isWordOpt a != isWordOpt b

/-- Does `new RegExp('\b' + pat + '\b', 'gi')` match at the head of `l`,
given the character `prev` preceding `l` in the full text? -/
def matchesWBAt (pat : List Char) (prev : Option Char) (l : List Char) : Bool :=
  match l with
  | [] => false
  | c :: _ =>
    reDotStartsWith pat l && boundaryOk prev (some c) &&
    boundaryOk ((l.take pat.length).getLast?) l[pat.length]?

/-- Model of `regex.test` for the word-bounded case-insensitive pattern: scan every
position. -/
def testWBAux (pat : List Char) : Option Char → List Char → Bool
  | _, [] => false
  | prev, c :: rest => matchesWBAt pat prev (c :: rest) || testWBAux pat (some c) rest

def testWB (pat s : List Char) : Bool := testWBAux pat none s

/-- Scan of `str.replace(/\bpat\b/gi, repl)`: matches are located in the
original text (a replacement never feeds back into matching), so the scan
carries the previous original character.  Fuelled like `replaceAllGo`; an
empty pattern leaves the string unchanged (never produced by the
repository). -/
def replaceWBGo (pat repl : List Char) : Nat → Option Char → List Char → List Char
  | _, _, [] => []
  | 0, _, l => l
  | fuel + 1, prev, c :: rest =>
    if pat ≠ [] ∧ matchesWBAt pat prev (c :: rest) then
      repl ++ replaceWBGo pat repl fuel ((c :: rest).take pat.length).getLast?
        (rest.drop (pat.length - 1))
    else c :: replaceWBGo pat repl fuel (some c) rest

def replaceWB (pat repl s : List Char) : List Char :=
  replaceWBGo pat repl s.length none s

/-- The literal placeholder the local filter inserts. -/
def tokenFiltered : List Char := "[TERM_FILTERED]".toList

/-- One iteration of the local `filterText` loop (authService.ts lines
911-917): on a word-bounded hit, record the term and mark its
occurrences. -/
def localFilterStep (acc : List Char × List (List Char)) (term : List Char) :
    List Char × List (List Char) :=
  if testWB term acc.1 then
    (replaceWB term tokenFiltered acc.1, acc.2 ++ [term])
  else acc

/-- The unconditional clean-up of the local `filterText` (lines 920-923):
rewrite the marks to `***`, collapse whitespace runs, trim. -/
def cleanupText (l : List Char) : List Char :=
  jsTrim (collapseWs (replaceAll tokenFiltered "***".toList l))

/-- Model of `filterText` of the local variant (authService.ts lines 903-929): mark
word-bounded occurrences of each active term, then clean up. -/
def filterText (config : ExcludedTermsConfig) (text : List Char) :
    List Char × List (List Char) :=
  let step := (getActiveExcludedTerms config).foldl localFilterStep (text, [])
  (cleanupText step.1, step.2)

end ExcludedTermsLocal

/-! ## `ConversationStorageService`
(src/src/services/conversationStorageService.ts), over an explicit model
of the IndexedDB object store: a list of records keyed by `id`.  Per the
IndexedDB specification, `store.put` upserts and `store.delete` succeeds
whether or not the key is present. -/

namespace ConversationStorage

/-- Model of `StoredConversation['metadata']` (all fields optional). -/
structure Metadata where
  messageCount : Option Nat := none
  lastMessagePreview : Option (List Char) := none
  tags : Option (List (List Char)) := none
  starred : Option Bool := none
deriving DecidableEq

/-- Model of `Partial<StoredConversation['metadata']>` as used by
`updateConversationMetadata`. -/
structure MetadataPatch where
  messageCount : Option Nat := none
  lastMessagePreview : Option (List Char) := none
  tags : Option (List (List Char)) := none
  starred : Option Bool := none
deriving DecidableEq

/-- Model of `{ ...conversation.metadata, ...updates }`. -/
def mergeMetadata (old : Option Metadata) (p : MetadataPatch) : Metadata :=
  { messageCount := p.messageCount <|> (old.bind Metadata.messageCount)
    lastMessagePreview := p.lastMessagePreview <|> (old.bind Metadata.lastMessagePreview)
    tags := p.tags <|> (old.bind Metadata.tags)
    starred := p.starred <|> (old.bind Metadata.starred) }

/-- Model of `StoredConversation`. -/
structure StoredConversation where
  id : List Char
  title : List Char
  userId : List Char
  createdAt : Nat
  updatedAt : Nat
  messages : List ChatMessageContent
  metadata : Option Metadata := none
deriving DecidableEq

/-- The `conversations` object store, keyed by `id`. -/
abbrev Store : Type := List StoredConversation

/-- Model of `store.put`: replace the record with the same key, else insert. -/
def putConv (store : Store) (c : StoredConversation) : Store :=
  if (store : List StoredConversation).any (fun x => x.id == c.id) then
    (store : List StoredConversation).map (fun x => if x.id = c.id then c else x)
  else (store : List StoredConversation) ++ [c]

/-- Model of `store.get` / `getConversation` (lines 126-139): `null` when absent. -/
def getConv (store : Store) (conversationId : List Char) :
    Option StoredConversation :=
  (store : List StoredConversation).find? (fun x => x.id == conversationId)

/-- The genre keywords of `extractTags` (lines 306-333). -/
def tagGenres : List (List Char) :=
  ["rock".toList, "pop".toList, "jazz".toList, "classical".toList,
   "reggae".toList, "hip-hop".toList, "country".toList, "electronic".toList,
   "folk".toList, "blues".toList, "metal".toList, "indie".toList,
   "latin".toList, "reggaeton".toList]

/-- The decade keywords of `extractTags`. -/
def tagDecades : List (List Char) :=
  ["60s".toList, "70s".toList, "80s".toList, "90s".toList,
   "2000s".toList, "2010s".toList, "2020s".toList]

/-- Model of `Set.add`, keeping insertion order. -/
def addTag (acc : List (List Char)) (t : List Char) : List (List Char) :=
  if t ∈ acc then acc else acc ++ [t]

/-- Model of `extractTags` (lines 306-333). -/
def extractTags (messages : List ChatMessageContent) : List (List Char) :=
  messages.foldl
    (fun acc message =>
      let text := message.text.map lc
      let acc := tagGenres.foldl
        (fun a genre => if occursS genre text then addTag a genre else a) acc
      let acc := tagDecades.foldl
        (fun a decade => if occursS decade text then addTag a decade else a) acc
      let acc := if occursS "playlist".toList text then addTag acc "playlist".toList else acc
      let acc := if occursS "album".toList text then addTag acc "albums".toList else acc
      let acc := if occursS "concert".toList text then addTag acc "concerts".toList else acc
      if occursS "spotify".toList text then addTag acc "spotify".toList else acc)
    []

/-- The record `saveConversation` builds (lines 68-83); `metadata.starred`
is the literal `false`. -/
def mkStoredConversation (conversation : ChatSession) (userId : List Char)
    (now : Nat) : StoredConversation :=
  { id := conversation.id
    title := conversation.title
    userId := userId
    createdAt := conversation.createdAt
    updatedAt := if conversation.updatedAt = 0 then now else conversation.updatedAt
    messages := conversation.messages
    metadata := some
      { messageCount := some conversation.messages.length
        lastMessagePreview := some
          (match conversation.messages.getLast? with
            | some m => m.text.take 100
            | none => [])
        tags := some (extractTags conversation.messages)
        starred := some false } }

/-- Model of `saveConversation` (lines 65-96): build the record and `put` it;
resolves with the stored record. -/
def saveConversation (store : Store) (conversation : ChatSession)
    (userId : List Char) (now : Nat) : Store × StoredConversation :=
  let sc := mkStoredConversation conversation userId now
  (putConv store sc, sc)

/-- Model of `deleteConversation` (lines 142-156): `store.delete` fires `onsuccess`
whether or not the key existed, so the promise resolves `true` either
way. -/
def deleteConversation (store : Store) (conversationId : List Char) :
    Store × Bool :=
  ((store : List StoredConversation).filter (fun x => ¬ x.id = conversationId), true)

/-- Model of `updateConversationMetadata` (lines 159-178). -/
def updateConversationMetadata (store : Store) (conversationId : List Char)
    (updates : MetadataPatch) (now : Nat) : Store × Bool :=
  match getConv store conversationId with
  | none => (store, false)
  | some conversation =>
    let c := { conversation with
      metadata := some (mergeMetadata conversation.metadata updates)
      updatedAt := now }
    (putConv store c, true)

/-- Model of `toggleConversationStar` (lines 181-189). -/
def toggleConversationStar (store : Store) (conversationId : List Char)
    (now : Nat) : Store × Bool :=
  match getConv store conversationId with
  | none => (store, false)
  | some conversation =>
    let newStarredStatus := ¬ ((conversation.metadata.bind Metadata.starred).getD false)
    ((updateConversationMetadata store conversationId
        { starred := some newStarredStatus } now).1,
      newStarredStatus)

end ConversationStorage

/-! ## Specification-side definitions

These follow the wording of the specification (not the code); the
refinement theorems compare them with the embedded source functions. -/

/-- Spec wording of C3: "the first non-empty field of the response object
taken in the priority order".  Generic first-non-blank selection over an
ordered field list. -/
def specFirstNonBlank (fields : List (List Char)) : Option (List Char) :=
  fields.find? (fun f => !(jsTrim f).isEmpty)

/-- Index of the first character satisfying `p`, if any. -/
def firstIdxWhere (p : Char → Bool) : List Char → Option Nat
  | [] => none
  | c :: rest => if p c then some 0 else (firstIdxWhere p rest).map (· + 1)

/-- Spec-style restatement of the (amended) title rule, phrased through
the index of the first sentence terminator rather than through the
splitting scan of the code. -/
def specSessionTitle (firstMessage : List Char) : List Char :=
  let cleaned := jsTrim firstMessage
  if cleaned.length ≤ 50 then cleaned
  else
    match firstIdxWhere UseChatSession.isSentenceTerminator cleaned with
    | some i =>
      if 1 ≤ i ∧ i ≤ 50 then jsTrim (cleaned.take i)
      else cleaned.take 47 ++ "...".toList
    | none => cleaned.take 47 ++ "...".toList

/-- The rejection condition C5 states for `validateTerm`: trimmed form
empty, shorter than 2, longer than 100, or containing a character outside
the letters/digits/space/basic-punctuation class (Spanish accents
allowed). -/
def specC5Rejects (term : List Char) : Prop :=
  jsTrim term = [] ∨ (jsTrim term).length < 2 ∨ (jsTrim term).length > 100 ∨
    ∃ c ∈ jsTrim term, ExcludedTermsBackend.validChar c = false

/-- The rejection condition actually implemented by the local
(IndexedDB) variant: 50-character maximum and the narrower
letters/digits/space/hyphen/apostrophe class. -/
def specC5LocalRejects (term : List Char) : Prop :=
  jsTrim term = [] ∨ (jsTrim term).length < 2 ∨ (jsTrim term).length > 50 ∨
    ∃ c ∈ jsTrim term,
      (c.isAlpha || c.isDigit || jsWhitespace c || c == '-' || c == Char.ofNat 39) = false

/-! ## Proof infrastructure: shape predicates for whitespace
normalisation -/

/-- The head, if any, is not whitespace. -/
def headNotWs : List Char → Bool
  | [] => true
  | c :: _ => !jsWhitespace c

/-- No two adjacent whitespace characters. -/
def noDoubleWs : List Char → Bool
  | [] => true
  | [_] => true
  | a :: b :: t => !(jsWhitespace a && jsWhitespace b) && noDoubleWs (b :: t)

/-- Every whitespace character is a plain space. -/
def wsOnlySpace (l : List Char) : Bool :=
  l.all (fun c => !jsWhitespace c || c == ' ')

/-- The last character, if any, is not whitespace. -/
def lastNotWs : List Char → Bool
  | [] => true
  | [c] => !jsWhitespace c
  | _ :: rest => lastNotWs rest

/-! # Theorems

First the shared helper lemmas, then one theorem per claim (with its
witness or counterexample). -/

/-! ## Basic helper lemmas -/

theorem jsOrStr_ne_nil (o : Option (List Char)) (d : List Char) (hd : d ≠ []) :
    jsOrStr o d ≠ [] := by
  unfold jsOrStr
  match o with
  | none => exact hd
  | some s =>
    by_cases hs : s = []
    · simp [hs, hd]
    · simp [hs]

theorem generateSessionId_ne_nil (now : Nat) (rand : List Char) :
    BFFChatService.generateSessionId now rand ≠ [] := by
  unfold BFFChatService.generateSessionId
  simp

/-! ## C1 -/

/-- C1: for a non-blank input with no request in flight, the state visible
when the gateway call is issued extends the previous message list by
exactly two messages: a USER message carrying the raw input, then an AI
message with empty text. -/
theorem c1_send_appends_user_then_placeholder
    (s : UseChatSession.ChatState) (inputText : List Char) (now : Nat)
    (hin : jsTrim inputText ≠ []) (hload : s.isLoading = false) :
    (UseChatSession.handleSendPre s inputText now).messages =
      s.messages ++
        [UseChatSession.mkUserMessage s inputText now,
         UseChatSession.mkPlaceholderMessage s now] ∧
    (UseChatSession.mkUserMessage s inputText now).sender = .user ∧
    (UseChatSession.mkUserMessage s inputText now).text = inputText ∧
    (UseChatSession.mkPlaceholderMessage s now).sender = .ai ∧
    (UseChatSession.mkPlaceholderMessage s now).text = [] := by
  refine ⟨?_, rfl, rfl, rfl, rfl⟩
  unfold UseChatSession.handleSendPre
  rw [if_neg (by simp [hin, hload])]
  simp

theorem c1_send_appends_user_then_placeholder_witness :
    jsTrim "Hola".toList ≠ [] ∧
    (UseChatSession.handleSendPre
        ⟨[], false, none, none, UseChatSession.defaultTitle⟩ "Hola".toList 7).messages =
      [UseChatSession.mkUserMessage
          ⟨[], false, none, none, UseChatSession.defaultTitle⟩ "Hola".toList 7,
       UseChatSession.mkPlaceholderMessage
          ⟨[], false, none, none, UseChatSession.defaultTitle⟩ 7] :=
  ⟨by decide,
    (c1_send_appends_user_then_placeholder
      ⟨[], false, none, none, UseChatSession.defaultTitle⟩ "Hola".toList 7
      (by decide) rfl).1⟩

/-! ## C2 -/

/-- C2: on a blank (empty or whitespace-only) input, or while a request is
already pending, `handleSendMessage` changes no state, issues no save, and
runs no completion. -/
theorem c2_send_noop_on_blank_or_loading
    (s : UseChatSession.ChatState) (inputText : List Char) (now : Nat)
    (rand : List Char) (outcome : FetchOutcome BFFChatService.ChatResponse)
    (h : jsTrim inputText = [] ∨ s.isLoading = true) :
    UseChatSession.handleSend s inputText now rand outcome = (s, none, none) := by
  unfold UseChatSession.handleSend
  rw [if_pos]
  rcases h with h | h
  · exact Or.inl h
  · exact Or.inr (by simp [h])

theorem c2_send_noop_on_blank_or_loading_witness :
    jsTrim "   ".toList = [] ∧
    UseChatSession.handleSend
        ⟨[], false, none, none, UseChatSession.defaultTitle⟩ "   ".toList 7 "r".toList
        (.networkError "boom".toList) =
      (⟨[], false, none, none, UseChatSession.defaultTitle⟩, none, none) :=
  ⟨by decide,
    c2_send_noop_on_blank_or_loading
      ⟨[], false, none, none, UseChatSession.defaultTitle⟩ "   ".toList 7 "r".toList
      (.networkError "boom".toList) (Or.inl (by decide))⟩

/-! ## C7 -/

/-- C7 counterexample: `getUserTerms` of the backend excluded-terms
service does NOT convert a transport failure into a
`{success: false, error}` result — its `catch` rethrows, so the exception
escapes the service call (authService.ts lines 272-275). -/
theorem c7_counterexample :
    ExcludedTermsBackend.getUserTerms 0 (fun _ => 0)
        (.networkError "Network error".toList) =
      .error "Network error".toList := rfl

/-- C7 amended: the `ApiResponse` wrappers of `chatService` convert every
failure of the taxonomy (transport failure, non-2xx status, malformed
body) into `{success: false, error}` and never throw, but the backend
excluded-terms service's `getUserTerms` rethrows those same failures to
its (hook-layer) caller. -/
theorem c7_service_error_conversion :
    (∀ (α : Type) (o : FetchOutcome α), fetchFailed o →
      (BFFChatService.post o).success = false ∧
      (BFFChatService.post o).error.isSome = true) ∧
    (∀ (now : Nat) (dateMillis : List Char → Nat)
        (o : FetchOutcome ExcludedTermsBackend.BackendTermsJson), fetchFailed o →
      ∃ m, ExcludedTermsBackend.getUserTerms now dateMillis o = .error m) := by
  constructor
  · intro α o hfail
    match o with
    | .networkError msg => exact ⟨rfl, rfl⟩
    | .httpResponse status body =>
      match body with
      | .error parseMsg => exact ⟨rfl, rfl⟩
      | .ok b =>
        rcases hfail with hstatus | ⟨m, hm⟩
        · simp only [BFFChatService.post]
          rw [if_pos hstatus]
          exact ⟨rfl, rfl⟩
        · exact absurd hm (by simp)
  · intro now dateMillis o hfail
    match o with
    | .networkError msg => exact ⟨msg, rfl⟩
    | .httpResponse status body =>
      rcases hfail with hstatus | ⟨m, hm⟩
      · refine ⟨("Backend error: " ++ toString status).toList, ?_⟩
        simp only [ExcludedTermsBackend.getUserTerms]
        rw [if_pos hstatus]
      · by_cases hstatus : statusOk status
        · refine ⟨m, ?_⟩
          simp only [ExcludedTermsBackend.getUserTerms]
          rw [if_neg (by simp [hstatus]), hm]
        · refine ⟨("Backend error: " ++ toString status).toList, ?_⟩
          simp only [ExcludedTermsBackend.getUserTerms]
          rw [if_pos hstatus]

theorem c7_service_error_conversion_witness :
    fetchFailed (FetchOutcome.networkError (α := BFFChatService.ChatResponse) "down".toList) ∧
    (BFFChatService.post
      (FetchOutcome.networkError (α := BFFChatService.ChatResponse) "down".toList)).success = false ∧
    ∃ m, ExcludedTermsBackend.getUserTerms 0 (fun _ => 0)
      (.networkError "down".toList) = .error m :=
  ⟨trivial,
    (c7_service_error_conversion.1 BFFChatService.ChatResponse
      (.networkError "down".toList) trivial).1,
    c7_service_error_conversion.2 0 (fun _ => 0)
      (.networkError "down".toList) trivial⟩

/-! ## C8 -/

/-- C8 counterexample: deleting an id that is not in the local store
resolves with `true` — a success report, not a failure result
(IndexedDB `delete` fires `onsuccess` for absent keys). -/
theorem c8_counterexample :
    ConversationStorage.deleteConversation [] "missing-id".toList = ([], true) := rfl

/-- C8 amended: the local storage `deleteConversation` resolves `true`
(success) and leaves the store unchanged when the id is absent, without
throwing; the BFF `deleteConversation` is the operation that converts a
failing (e.g. id-not-found, non-2xx) backend outcome into a failure result
without throwing. -/
theorem c8_delete_missing_conversation :
    (∀ (store : ConversationStorage.Store) (conversationId : List Char),
      ConversationStorage.getConv store conversationId = none →
      ConversationStorage.deleteConversation store conversationId = (store, true)) ∧
    (∀ o : FetchOutcome BFFChatService.DeleteResult, fetchFailed o →
      (BFFChatService.deleteConversation o).success = false ∧
      (BFFChatService.deleteConversation o).error.isSome = true) := by
  constructor
  · intro store conversationId hmiss
    unfold ConversationStorage.deleteConversation
    have hall : ∀ x ∈ store, ¬ (x.id == conversationId) = true := by
      intro x hx
      exact List.find?_eq_none.mp hmiss x hx
    have : store.filter (fun x => ¬ x.id = conversationId) = store := by
      apply List.filter_eq_self.mpr
      intro x hx
      have := hall x hx
      simp only [beq_iff_eq] at this
      simp [this]
    rw [this]
  · intro o hfail
    match o with
    | .networkError msg => exact ⟨rfl, rfl⟩
    | .httpResponse status body =>
      match body with
      | .error parseMsg => exact ⟨rfl, rfl⟩
      | .ok b =>
        rcases hfail with hstatus | ⟨m, hm⟩
        · simp only [BFFChatService.deleteConversation, BFFChatService.deleteReq]
          rw [if_pos hstatus]
          exact ⟨rfl, rfl⟩
        · exact absurd hm (by simp)

theorem c8_delete_missing_conversation_witness :
    ConversationStorage.getConv
        [⟨"a".toList, "t".toList, "u".toList, 0, 1, [], none⟩] "b".toList = none ∧
    ConversationStorage.deleteConversation
        [⟨"a".toList, "t".toList, "u".toList, 0, 1, [], none⟩] "b".toList =
      ([⟨"a".toList, "t".toList, "u".toList, 0, 1, [], none⟩], true) :=
  ⟨by decide,
    c8_delete_missing_conversation.1
      [⟨"a".toList, "t".toList, "u".toList, 0, 1, [], none⟩] "b".toList (by decide)⟩

/-! ## C10 -/

theorem getConv_putConv (store : ConversationStorage.Store)
    (c : ConversationStorage.StoredConversation) :
    ConversationStorage.getConv (ConversationStorage.putConv store c) c.id = some c := by
  induction store with
  | nil => simp [ConversationStorage.putConv, ConversationStorage.getConv, List.find?]
  | cons x rest ih =>
    unfold ConversationStorage.putConv ConversationStorage.getConv
    by_cases hx : x.id = c.id
    · simp [List.any_cons, hx, List.find?]
    · have hxb : (x.id == c.id) = false := by simp [hx]
      by_cases ha : rest.any (fun y => y.id == c.id)
      · simp only [List.any_cons, hxb, Bool.false_or, ha, if_pos]
        simp only [List.map_cons, if_neg hx, List.find?, hxb]
        have := ih
        unfold ConversationStorage.putConv ConversationStorage.getConv at this
        rwa [if_pos ha] at this
      · have hab : rest.any (fun y => y.id == c.id) = false := by
          simpa using ha
        simp only [List.any_cons, hxb, Bool.false_or, hab, Bool.false_eq_true,
          if_false, List.cons_append, List.find?, hxb]
        have := ih
        unfold ConversationStorage.putConv ConversationStorage.getConv at this
        rwa [if_neg (by simp [hab])] at this

/-- C10: `saveConversation` always writes `metadata.starred = false`
(conversationStorageService.ts line 81), so saving a conversation right
after `toggleConversationStar` turned its star on leaves the stored flag
`false`. -/
theorem c10_save_resets_star
    (store : ConversationStorage.Store) (conv : ChatSession)
    (userId : List Char) (now1 now2 : Nat) :
    ((ConversationStorage.saveConversation store conv userId now2).2.metadata.bind
        ConversationStorage.Metadata.starred = some false) ∧
    ((ConversationStorage.toggleConversationStar store conv.id now1).2 = true →
      ((ConversationStorage.getConv
          (ConversationStorage.saveConversation
            (ConversationStorage.toggleConversationStar store conv.id now1).1
            conv userId now2).1 conv.id).bind
        (fun c => c.metadata.bind ConversationStorage.Metadata.starred)) = some false) := by
  constructor
  · simp [ConversationStorage.saveConversation, ConversationStorage.mkStoredConversation]
  · intro _
    have hid : (ConversationStorage.mkStoredConversation conv userId now2).id = conv.id := rfl
    have := getConv_putConv
      (ConversationStorage.toggleConversationStar store conv.id now1).1
      (ConversationStorage.mkStoredConversation conv userId now2)
    rw [hid] at this
    simp only [ConversationStorage.saveConversation, this]
    simp [ConversationStorage.mkStoredConversation]

theorem c10_save_resets_star_witness :
    (ConversationStorage.toggleConversationStar
        [⟨"a".toList, "t".toList, "u".toList, 0, 1, [],
          some ⟨some 0, some [], some [], some false⟩⟩] "a".toList 5).2 = true ∧
    ((ConversationStorage.getConv
        (ConversationStorage.saveConversation
          (ConversationStorage.toggleConversationStar
            [⟨"a".toList, "t".toList, "u".toList, 0, 1, [],
              some ⟨some 0, some [], some [], some false⟩⟩] "a".toList 5).1
          ⟨"a".toList, "a".toList, "t".toList, 0, 9, []⟩ "u".toList 6).1 "a".toList).bind
      (fun c => c.metadata.bind ConversationStorage.Metadata.starred)) = some false :=
  ⟨by decide,
    (c10_save_resets_star
      [⟨"a".toList, "t".toList, "u".toList, 0, 1, [],
        some ⟨some 0, some [], some [], some false⟩⟩]
      ⟨"a".toList, "a".toList, "t".toList, 0, 9, []⟩ "u".toList 5 6).2 (by decide)⟩

/-! ## C3 -/

/-- C3 counterexample: a success-shaped gateway response whose usable
fields are all blank is displayed as a fixed apology string that is none
of the response's fields — the displayed text is not "the first non-empty
field of the response object". -/
theorem c3_counterexample :
    BFFChatService.extractFullResponse
        { statusCode := 200, response := [], error := [], isSuccess := true,
          contextualizedQuestions := [], naturalResponse := [], sessionId := none } =
      BFFChatService.fallbackApology ∧
    BFFChatService.fallbackApology ≠ [] := by
  constructor
  · rfl
  · decide

/-- C3 amended: the displayed AI text is the first field with a non-blank
trimmed value among exactly `naturalResponse`, `response`,
`contextualizedQuestions` — in that order — and a fixed apology when all
three are blank.  (The response type has no clarification-message or
user-friendly-description field.) -/
theorem c3_priority_selection (r : BFFChatService.ChatResponse) :
    BFFChatService.extractFullResponse r =
      (specFirstNonBlank
          [r.naturalResponse, r.response, r.contextualizedQuestions]).getD
        BFFChatService.fallbackApology := by
  have hne : ∀ f : List Char, jsTrim f ≠ [] → f ≠ [] := by
    intro f h hf
    exact h (by rw [hf]; rfl)
  have hemp : ∀ f : List Char, (jsTrim f).isEmpty = true ↔ jsTrim f = [] := by
    intro f; simp [List.isEmpty_iff]
  unfold BFFChatService.extractFullResponse specFirstNonBlank
  by_cases h1 : jsTrim r.naturalResponse = []
  · have e1 : (jsTrim r.naturalResponse).isEmpty = true := (hemp _).mpr h1
    by_cases h2 : jsTrim r.response = []
    · have e2 : (jsTrim r.response).isEmpty = true := (hemp _).mpr h2
      by_cases h3 : jsTrim r.contextualizedQuestions = []
      · have e3 : (jsTrim r.contextualizedQuestions).isEmpty = true := (hemp _).mpr h3
        simp [h1, h2, h3, List.find?, e1, e2, e3]
      · have e3 : (jsTrim r.contextualizedQuestions).isEmpty = false := by
          simp [List.isEmpty_iff, h3]
        simp [h1, h2, h3, hne _ h3, List.find?, e1, e2, e3]
    · have e2 : (jsTrim r.response).isEmpty = false := by
        simp [List.isEmpty_iff, h2]
      simp [h1, h2, hne _ h2, List.find?, e1, e2]
  · have e1 : (jsTrim r.naturalResponse).isEmpty = false := by
      simp [List.isEmpty_iff, h1]
    simp [h1, hne _ h1, List.find?, e1]

/-! ## C5 -/

set_option maxRecDepth 4000 in
/-- C5 counterexample: the local (IndexedDB) `validateTerm` variant
rejects a 60-character alphabetic term, although the claim's condition
(empty, shorter than 2, longer than 100, or invalid character) does not
hold for it. -/
theorem c5_counterexample :
    (ExcludedTermsLocal.validateTerm (List.replicate 60 'a')).isValid = false ∧
    ¬ specC5Rejects (List.replicate 60 'a') := by
  unfold specC5Rejects
  constructor
  · decide
  · decide

/-- C5 amended: the backend `validateTerm` rejects exactly under the
claim's condition (trimmed form empty, length < 2 or > 100, or a character
outside letters/digits/whitespace/`-_.,!?` with Spanish accents allowed);
the local variant instead caps the length at 50 and allows only
letters/digits/whitespace/hyphen/apostrophe.  Both reject 1-character and
101-character terms and accept 2-character alphabetic terms. -/
theorem c5_validate_term_characterisation :
    (∀ term : List Char,
      (ExcludedTermsBackend.validateTerm term).isValid = false ↔ specC5Rejects term) ∧
    (∀ term : List Char,
      (ExcludedTermsLocal.validateTerm term).isValid = false ↔ specC5LocalRejects term) := by
  constructor
  · intro term
    unfold ExcludedTermsBackend.validateTerm specC5Rejects
    dsimp only
    by_cases h1 : jsTrim term = []
    · simp [h1]
    · rw [if_neg h1]
      by_cases h2 : (jsTrim term).length < 2
      · simp [h1, h2]
      · rw [if_neg h2]
        by_cases h3 : (jsTrim term).length > 100
        · simp [h1, h2, h3]
        · rw [if_neg h3]
          by_cases h4 : (jsTrim term).all ExcludedTermsBackend.validChar = true
          · rw [if_neg (by simp [h4])]
            have hall := List.all_eq_true.mp h4
            simp only [Bool.true_eq_false, false_iff]
            push_neg
            refine ⟨h1, by omega, by omega, ?_⟩
            intro c hc
            simp [hall c hc]
          · rw [if_pos (by simp [h4])]
            rw [List.all_eq_true] at h4
            push_neg at h4
            obtain ⟨c, hc, hval⟩ := h4
            simp only [Bool.not_eq_true] at hval
            simp only [true_iff]
            exact Or.inr (Or.inr (Or.inr ⟨c, hc, hval⟩))
  · intro term
    unfold ExcludedTermsLocal.validateTerm specC5LocalRejects
    dsimp only
    by_cases h1 : jsTrim term = []
    · simp [h1]
    · rw [if_neg h1]
      by_cases h2 : (jsTrim term).length < 2
      · simp [h1, h2]
      · rw [if_neg h2]
        by_cases h3 : (jsTrim term).length > 50
        · simp [h1, h2, h3]
        · rw [if_neg h3]
          by_cases h4 : (jsTrim term).all
              (fun c => c.isAlpha || c.isDigit || jsWhitespace c ||
                c == '-' || c == Char.ofNat 39) = true
          · rw [if_neg (by simp [h4])]
            have hall := List.all_eq_true.mp h4
            simp only [Bool.true_eq_false, false_iff]
            push_neg
            refine ⟨h1, by omega, by omega, ?_⟩
            intro c hc
            simp [hall c hc]
          · rw [if_pos (by simp [h4])]
            rw [List.all_eq_true] at h4
            push_neg at h4
            obtain ⟨c, hc, hval⟩ := h4
            simp only [Bool.not_eq_true] at hval
            simp only [true_iff]
            exact Or.inr (Or.inr (Or.inr ⟨c, hc, hval⟩))

/-! ## C4 -/

theorem takeWhile_not_eq_firstIdxWhere (p : Char → Bool) (l : List Char) :
    l.takeWhile (fun c => !p c) =
      (match firstIdxWhere p l with
        | some i => l.take i
        | none => l) := by
  induction l with
  | nil => simp [firstIdxWhere]
  | cons a rest ih =>
    by_cases ha : p a
    · simp [List.takeWhile_cons, firstIdxWhere, ha]
    · simp only [List.takeWhile_cons, ha, Bool.not_false, if_true, firstIdxWhere,
        Bool.not_eq_true, if_neg ha]
      cases h : firstIdxWhere p rest with
      | none =>
        rw [h] at ih
        simp [h, ih]
      | some i =>
        rw [h] at ih
        simp [h, ih, List.take_succ_cons]

theorem firstIdxWhere_some_lt_length (p : Char → Bool) (l : List Char) (i : Nat)
    (h : firstIdxWhere p l = some i) : i < l.length := by
  induction l generalizing i with
  | nil => simp [firstIdxWhere] at h
  | cons a rest ih =>
    by_cases ha : p a
    · rw [firstIdxWhere, if_pos ha] at h
      injection h with h
      simp only [List.length_cons]
      omega
    · rw [firstIdxWhere, if_neg ha] at h
      cases hr : firstIdxWhere p rest with
      | none =>
        rw [hr] at h
        exact absurd h (by simp)
      | some j =>
        rw [hr] at h
        have hji : j + 1 = i := by simpa using h
        have := ih j hr
        simp only [List.length_cons]
        omega

set_option maxRecDepth 8000 in
/-- C4 counterexample: a trimmed message of length 55 with no sentence
terminator among its first 50 characters (the terminator is the 51st
character).  The claim then prescribes the truncated `first 47 + "..."`
title, but `generateSessionTitle` returns the full 50-character leading
sentence. -/
theorem c4_counterexample :
    UseChatSession.generateSessionTitle (List.replicate 50 'a' ++ "!bbbb".toList) =
      List.replicate 50 'a' ∧
    (jsTrim (List.replicate 50 'a' ++ "!bbbb".toList)).length > 50 ∧
    ((jsTrim (List.replicate 50 'a' ++ "!bbbb".toList)).take 50).all
      (fun c => !UseChatSession.isSentenceTerminator c) = true ∧
    List.replicate 50 'a' ≠
      (jsTrim (List.replicate 50 'a' ++ "!bbbb".toList)).take 47 ++ "...".toList := by
  refine ⟨by decide, by decide, by decide, by decide⟩

/-- C4 amended: for a trimmed message of more than 50 characters, the
title is the trimmed segment before the first sentence terminator
whenever that segment is non-empty and at most 50 characters long (i.e.
the first terminator sits at an index between 1 and 50 inclusive), and the
first 47 characters plus `"..."` otherwise; for at most 50 characters the
title is the trimmed message itself. -/
theorem c4_title_characterisation (firstMessage : List Char) :
    UseChatSession.generateSessionTitle firstMessage = specSessionTitle firstMessage := by
  unfold UseChatSession.generateSessionTitle specSessionTitle
  dsimp only
  by_cases hlen : (jsTrim firstMessage).length ≤ 50
  · simp [hlen]
  · rw [if_neg hlen, if_neg hlen]
    have htw := takeWhile_not_eq_firstIdxWhere
      UseChatSession.isSentenceTerminator (jsTrim firstMessage)
    cases h : firstIdxWhere UseChatSession.isSentenceTerminator (jsTrim firstMessage) with
    | none =>
      rw [h] at htw
      dsimp only at htw
      rw [htw]
      dsimp only
      rw [if_neg (by push_neg; intro _; omega)]
    | some i =>
      rw [h] at htw
      dsimp only at htw
      rw [htw]
      have hi : i < (jsTrim firstMessage).length := firstIdxWhere_some_lt_length _ _ _ h
      have hlentake : ((jsTrim firstMessage).take i).length = i := by
        rw [List.length_take]
        omega
      dsimp only
      by_cases hcond : 1 ≤ i ∧ i ≤ 50
      · rw [if_pos hcond, if_pos]
        constructor
        · rw [Ne, List.take_eq_nil_iff]
          push_neg
          constructor
          · omega
          · intro hnil
            rw [hnil] at hlen
            simp at hlen
        · omega
      · rw [if_neg hcond, if_neg]
        intro ⟨hne, hle⟩
        apply hcond
        constructor
        · rcases Nat.eq_zero_or_pos i with h0 | h0
          · exact absurd (by simp [h0]) hne
          · omega
        · omega

/-! ## C9 -/

theorem simulatedResult_ok_sid_ne_nil (req : Option (List Char)) (now : Nat)
    (rand : List Char) (outcome : FetchOutcome BFFChatService.ChatResponse)
    (fr rid : List Char)
    (h : BFFChatService.simulatedResult req now rand outcome = .ok (fr, rid)) :
    rid ≠ [] := by
  unfold BFFChatService.simulatedResult at h
  dsimp only at h
  split at h
  · exact absurd h (by simp)
  · split at h
    · exact absurd h (by simp)
    · split at h
      · exact absurd h (by simp)
      · simp only [Except.ok.injEq, Prod.mk.injEq] at h
        obtain ⟨-, hrid⟩ := h
        rw [← hrid]
        exact jsOrStr_ne_nil _ _ (jsOrStr_ne_nil _ _ (generateSessionId_ne_nil now rand))

/-- C9 counterexample: sending a non-blank question with an absent session
id completes with a freshly generated non-empty session id, but no
persistence call is made at all — `saveCurrentSession` still sees the
absent pre-send session id through its closure and returns without
saving, so no save reuses the returned id. -/
theorem c9_counterexample :
    (UseChatSession.handleSend ⟨[], false, none, none, UseChatSession.defaultTitle⟩
        "¿Qué es el jazz fusion?".toList 1700000000000 "k3j9xq2w1".toList
        (.httpResponse 200 (.ok ⟨none,
          { statusCode := 200, response := [], error := [], isSuccess := true,
            contextualizedQuestions := [],
            naturalResponse := "El jazz fusion es un género híbrido.".toList,
            sessionId := none }⟩))).2.2 =
      some "1700000000000-k3j9xq2w1".toList ∧
    "1700000000000-k3j9xq2w1".toList ≠ [] ∧
    (UseChatSession.handleSend ⟨[], false, none, none, UseChatSession.defaultTitle⟩
        "¿Qué es el jazz fusion?".toList 1700000000000 "k3j9xq2w1".toList
        (.httpResponse 200 (.ok ⟨none,
          { statusCode := 200, response := [], error := [], isSuccess := true,
            contextualizedQuestions := [],
            naturalResponse := "El jazz fusion es un género híbrido.".toList,
            sessionId := none }⟩))).2.1 = none := by
  refine ⟨rfl, by decide, rfl⟩

/-- C9 amended: whenever a send performed with an absent session id runs
its completion callback, the session id it receives is non-empty; the
subsequent persistence, however, is skipped (no save call is issued)
because the save routine still observes the absent pre-send session id,
so the received id is only installed as the new current session id. -/
theorem c9_empty_session_send (s : UseChatSession.ChatState) (inputText : List Char)
    (now : Nat) (rand : List Char) (outcome : FetchOutcome BFFChatService.ChatResponse)
    (hsid : s.currentSessionId = none) (sid : List Char)
    (hcomplete : (UseChatSession.handleSend s inputText now rand outcome).2.2 = some sid) :
    sid ≠ [] ∧ (UseChatSession.handleSend s inputText now rand outcome).2.1 = none := by
  unfold UseChatSession.handleSend at hcomplete ⊢
  by_cases hguard : jsTrim inputText = [] ∨ s.isLoading
  · rw [if_pos hguard] at hcomplete
    simp at hcomplete
  · rw [if_neg hguard] at hcomplete ⊢
    dsimp only at hcomplete ⊢
    cases hr : BFFChatService.simulatedResult (jsOrUndef s.currentSessionId) now rand outcome with
    | error e =>
      rw [hr] at hcomplete
      simp at hcomplete
    | ok pr =>
      obtain ⟨fr, rid⟩ := pr
      rw [hr] at hcomplete
      dsimp only at hcomplete ⊢
      have hrid : rid = sid := by simpa using hcomplete
      subst hrid
      refine ⟨simulatedResult_ok_sid_ne_nil _ _ _ _ _ _ hr, ?_⟩
      rw [hsid]
      simp [UseChatSession.saveCurrentSession, jsFalsy]

theorem c9_empty_session_send_witness :
    "1700000000000-w2".toList ≠ [] ∧
    (UseChatSession.handleSend ⟨[], false, none, none, UseChatSession.defaultTitle⟩
        "¿Qué es el jazz fusion?".toList 1700000000000 "w2".toList
        (.httpResponse 200 (.ok ⟨none,
          { statusCode := 200, response := [], error := [], isSuccess := true,
            contextualizedQuestions := [],
            naturalResponse := "Es un género híbrido.".toList,
            sessionId := none }⟩))).2.1 = none :=
  c9_empty_session_send ⟨[], false, none, none, UseChatSession.defaultTitle⟩
    "¿Qué es el jazz fusion?".toList 1700000000000 "w2".toList
    (.httpResponse 200 (.ok ⟨none,
      { statusCode := 200, response := [], error := [], isSuccess := true,
        contextualizedQuestions := [],
        naturalResponse := "Es un género híbrido.".toList,
        sessionId := none }⟩))
    rfl "1700000000000-w2".toList rfl

/-! ## C6: occurrence lemmas -/

theorem occursS_iff (pat s : List Char) :
    occursS pat s = true ↔ ∃ a b, s = a ++ pat ++ b := by
  induction s with
  | nil =>
    simp only [occursS]
    constructor
    · intro h
      have := List.isPrefixOf_iff_prefix.mp h
      obtain ⟨t, ht⟩ := this
      refine ⟨[], t, ?_⟩
      simp [← ht]
    · rintro ⟨a, b, hab⟩
      have h1 := List.append_eq_nil.mp hab.symm
      have hp : pat = [] := (List.append_eq_nil.mp h1.1).2
      rw [hp]
      simp [List.isPrefixOf]
  | cons c rest ih =>
    simp only [occursS, Bool.or_eq_true]
    constructor
    · rintro (h | h)
      · obtain ⟨t, ht⟩ := List.isPrefixOf_iff_prefix.mp h
        exact ⟨[], t, by simp [← ht]⟩
      · obtain ⟨a, b, hab⟩ := ih.mp h
        exact ⟨c :: a, b, by simp [hab]⟩
    · rintro ⟨a, b, hab⟩
      cases a with
      | nil =>
        left
        apply List.isPrefixOf_iff_prefix.mpr
        exact ⟨b, by simp [hab]⟩
      | cons a0 a' =>
        right
        apply ih.mpr
        refine ⟨a', b, ?_⟩
        have : c = a0 ∧ rest = a' ++ pat ++ b := by
          simpa using hab
        exact this.2

theorem occursS_of_infix (pat x y v : List Char) (h : occursS pat v = true) :
    occursS pat (x ++ v ++ y) = true := by
  obtain ⟨a, b, hab⟩ := (occursS_iff pat v).mp h
  apply (occursS_iff pat _).mpr
  exact ⟨x ++ a, b ++ y, by simp [hab]⟩

theorem trimRight_append (l : List Char) : ∃ b, l = trimRight l ++ b := by
  induction l with
  | nil => exact ⟨[], rfl⟩
  | cons c rest ih =>
    unfold trimRight
    dsimp only
    split_ifs with h
    · exact ⟨c :: rest, rfl⟩
    · obtain ⟨b, hb⟩ := ih
      exact ⟨b, by rw [List.cons_append, ← hb]⟩

theorem jsTrim_is_infix (l : List Char) : ∃ a b, l = a ++ jsTrim l ++ b := by
  obtain ⟨b, hb⟩ := trimRight_append (l.dropWhile jsWhitespace)
  refine ⟨l.takeWhile jsWhitespace, b, ?_⟩
  conv_lhs => rw [← List.takeWhile_append_dropWhile (p := jsWhitespace) (l := l)]
  rw [hb]
  simp [jsTrim, List.append_assoc]

theorem occursS_of_jsTrim (pat l : List Char) (h : occursS pat (jsTrim l) = true) :
    occursS pat l = true := by
  obtain ⟨a, b, hab⟩ := jsTrim_is_infix l
  rw [hab]
  exact occursS_of_infix pat a b _ h

theorem isPrefixOf_collapse (p w : List Char)
    (hws : ∀ c ∈ p, jsWhitespace c = false)
    (h : p.isPrefixOf (collapseWsAux false w) = true) :
    p.isPrefixOf w = true := by
  induction w generalizing p with
  | nil => simpa [collapseWsAux] using h
  | cons d t ih =>
    by_cases hd : jsWhitespace d
    · rw [collapseWsAux, if_pos hd] at h
      cases p with
      | nil => simp [List.isPrefixOf]
      | cons q p' =>
        have hq : q = ' ' := by
          cases hqe : q == ' ' with
          | true => exact (beq_iff_eq.mp hqe)
          | false =>
            simp only [List.isPrefixOf, hqe, Bool.false_and] at h
            exact absurd h (by simp)
        have := hws q (by simp)
        rw [hq] at this
        simp [jsWhitespace] at this
    · rw [collapseWsAux, if_neg hd] at h
      cases p with
      | nil => simp [List.isPrefixOf]
      | cons q p' =>
        simp only [List.isPrefixOf, Bool.and_eq_true] at h
        obtain ⟨hqd, hp'⟩ := h
        simp only [List.isPrefixOf, Bool.and_eq_true]
        exact ⟨hqd, ih p' (fun c hc => hws c (by simp [hc])) hp'⟩

theorem occursS_collapse (pat : List Char) (hne : pat ≠ [])
    (hws : ∀ c ∈ pat, jsWhitespace c = false) :
    ∀ (b : Bool) (w : List Char),
      occursS pat (collapseWsAux b w) = true → occursS pat w = true := by
  intro b w
  induction w generalizing b with
  | nil =>
    intro h
    rw [collapseWsAux] at h
    cases pat with
    | nil => exact absurd rfl hne
    | cons q p' =>
      rw [occursS] at h
      simp [List.isPrefixOf] at h
  | cons d t ih =>
    intro h
    by_cases hd : jsWhitespace d
    · rw [collapseWsAux, if_pos hd] at h
      by_cases hb : b
      · rw [if_pos hb] at h
        have := ih true h
        simp [occursS, this]
      · rw [if_neg hb] at h
        rw [occursS, Bool.or_eq_true] at h
        rcases h with h | h
        · cases pat with
          | nil => exact absurd rfl hne
          | cons q p' =>
            have hq : q = ' ' := by
              cases hqe : q == ' ' with
              | true => exact (beq_iff_eq.mp hqe)
              | false =>
                simp only [List.isPrefixOf, hqe, Bool.false_and] at h
                exact absurd h (by simp)
            have := hws q (by simp)
            rw [hq] at this
            simp [jsWhitespace] at this
        · have := ih true h
          simp [occursS, this]
    · rw [collapseWsAux, if_neg hd] at h
      rw [occursS, Bool.or_eq_true] at h
      rcases h with h | h
      · cases pat with
        | nil => exact absurd rfl hne
        | cons q p' =>
          simp only [List.isPrefixOf, Bool.and_eq_true] at h
          obtain ⟨hqd, hp'⟩ := h
          have hp't := isPrefixOf_collapse p' t
            (fun c hc => hws c (by simp [hc])) hp'
          rw [occursS, Bool.or_eq_true]
          left
          simp only [List.isPrefixOf, Bool.and_eq_true]
          exact ⟨hqd, hp't⟩
      · have := ih false h
        simp [occursS, this]

/-! ## C6: replacement lemmas -/

theorem replaceAllGo_of_no_occur (pat repl : List Char) (fuel : Nat) :
    ∀ s : List Char, occursS pat s = false → replaceAllGo pat repl fuel s = s := by
  induction fuel with
  | zero =>
    intro s h
    cases s with
    | nil => rfl
    | cons c rest => rfl
  | succ fuel ih =>
    intro s h
    cases s with
    | nil => rfl
    | cons c rest =>
      rw [occursS, Bool.or_eq_false_iff] at h
      rw [replaceAllGo, if_neg (by simp [h.1]), ih rest h.2]

theorem replaceAll_of_no_occur (pat repl s : List Char)
    (h : occursS pat s = false) : replaceAll pat repl s = s :=
  replaceAllGo_of_no_occur pat repl s.length s h

theorem isPrefixOf_replaceAllGo (pat repl : List Char)
    (hrepl : ∀ c ∈ repl, c = '*') (hrne : repl ≠ []) (fuel : Nat) :
    ∀ (s p : List Char), (∀ c ∈ p, ¬ c = '*') →
      p.isPrefixOf (replaceAllGo pat repl fuel s) = true →
      p.isPrefixOf s = true := by
  induction fuel with
  | zero =>
    intro s p hstar h
    cases s with
    | nil => exact h
    | cons c rest => exact h
  | succ fuel ih =>
    intro s p hstar h
    cases s with
    | nil => exact h
    | cons c rest =>
      rw [replaceAllGo] at h
      split_ifs at h with hm
      · cases p with
        | nil => simp [List.isPrefixOf]
        | cons q p' =>
          cases hr : repl with
          | nil => exact absurd hr hrne
          | cons r0 r' =>
            rw [hr] at h
            simp only [List.cons_append, List.isPrefixOf, Bool.and_eq_true] at h
            have hq : q = r0 := beq_iff_eq.mp h.1
            have : r0 = '*' := hrepl r0 (by simp [hr])
            exact absurd (hq.trans this) (hstar q (by simp))
      · cases p with
        | nil => simp [List.isPrefixOf]
        | cons q p' =>
          simp only [List.isPrefixOf, Bool.and_eq_true] at h ⊢
          exact ⟨h.1, ih rest p' (fun c hc => hstar c (by simp [hc])) h.2⟩

theorem occursS_append_stars (pat : List Char) (q : Char) (p' : List Char)
    (hpat : pat = q :: p') (hq : ¬ q = '*') (repl : List Char)
    (hrepl : ∀ c ∈ repl, c = '*') (X : List Char) :
    occursS pat (repl ++ X) = occursS pat X := by
  induction repl with
  | nil => simp
  | cons r0 r' ih =>
    have hr0 : r0 = '*' := hrepl r0 (by simp)
    rw [List.cons_append, occursS]
    have : pat.isPrefixOf (r0 :: (r' ++ X)) = false := by
      rw [hpat]
      simp only [List.isPrefixOf]
      have : (q == r0) = false := by
        simp [hr0, hq]
      simp [this]
    rw [this, Bool.false_or]
    exact ih (fun c hc => hrepl c (by simp [hc]))

theorem occursS_replaceAllGo (pat : List Char) (q : Char) (p' : List Char)
    (hpat : pat = q :: p') (hq : ¬ q = '*') (hstar : ∀ c ∈ pat, ¬ c = '*')
    (repl : List Char) (hrepl : ∀ c ∈ repl, c = '*') (hrne : repl ≠ [])
    (fuel : Nat) :
    ∀ s : List Char, s.length ≤ fuel →
      occursS pat (replaceAllGo pat repl fuel s) = false := by
  subst hpat
  induction fuel with
  | zero =>
    intro s hfuel
    cases s with
    | nil => rfl
    | cons c rest => simp at hfuel
  | succ fuel ih =>
    intro s hfuel
    cases s with
    | nil => rfl
    | cons c rest =>
      rw [List.length_cons] at hfuel
      rw [replaceAllGo]
      split_ifs with hm
      · rw [occursS_append_stars (q :: p') q p' rfl hq repl hrepl]
        apply ih
        have := rest.length_drop ((q :: p').length - 1)
        omega
      · rw [occursS, Bool.or_eq_false_iff]
        refine ⟨?_, ih rest (by omega)⟩
        cases hpre : (q :: p').isPrefixOf
            (c :: replaceAllGo (q :: p') repl fuel rest) with
        | false => rfl
        | true =>
          exfalso
          simp only [List.isPrefixOf, Bool.and_eq_true] at hpre
          have hp' := isPrefixOf_replaceAllGo (q :: p') repl hrepl hrne fuel rest p'
            (fun c hc => hstar c (by simp [hc])) hpre.2
          apply hm
          refine ⟨by simp, ?_⟩
          simp only [List.isPrefixOf, Bool.and_eq_true]
          exact ⟨hpre.1, hp'⟩

theorem occursS_replaceAll (pat : List Char) (q : Char) (p' : List Char)
    (hpat : pat = q :: p') (hq : ¬ q = '*') (hstar : ∀ c ∈ pat, ¬ c = '*')
    (repl : List Char) (hrepl : ∀ c ∈ repl, c = '*') (hrne : repl ≠ [])
    (s : List Char) :
    occursS pat (replaceAll pat repl s) = false :=
  occursS_replaceAllGo pat q p' hpat hq hstar repl hrepl hrne s.length s le_rfl

/-! ## C6: normalisation lemmas -/

theorem noDoubleWs_tail (a : Char) (t : List Char)
    (h : noDoubleWs (a :: t) = true) : noDoubleWs t = true := by
  cases t with
  | nil => rfl
  | cons b u =>
    rw [noDoubleWs, Bool.and_eq_true] at h
    exact h.2

theorem noDoubleWs_cons_of (a : Char) (X : List Char)
    (h1 : noDoubleWs X = true)
    (h2 : jsWhitespace a = false ∨ headNotWs X = true) :
    noDoubleWs (a :: X) = true := by
  cases X with
  | nil => rfl
  | cons x t =>
    rw [noDoubleWs, Bool.and_eq_true]
    refine ⟨?_, h1⟩
    rcases h2 with h2 | h2
    · simp [h2]
    · rw [headNotWs] at h2
      simp only [Bool.not_eq_true'] at h2
      simp [h2]

theorem wsOnlySpace_collapse (b : Bool) (l : List Char) :
    wsOnlySpace (collapseWsAux b l) = true := by
  induction l generalizing b with
  | nil => rfl
  | cons c rest ih =>
    by_cases hc : jsWhitespace c
    · rw [collapseWsAux, if_pos hc]
      by_cases hb : b
      · rw [if_pos hb]
        exact ih true
      · rw [if_neg hb]
        have := ih true
        rw [wsOnlySpace] at this ⊢
        simp [this]
    · rw [collapseWsAux, if_neg hc]
      have := ih false
      rw [wsOnlySpace] at this ⊢
      simp [this, hc]

theorem noDoubleWs_headNotWs_collapse (b : Bool) (l : List Char) :
    noDoubleWs (collapseWsAux b l) = true ∧
    (b = true → headNotWs (collapseWsAux b l) = true) := by
  induction l generalizing b with
  | nil => exact ⟨rfl, fun _ => rfl⟩
  | cons c rest ih =>
    by_cases hc : jsWhitespace c
    · cases b with
      | true =>
        rw [collapseWsAux, if_pos hc, if_pos rfl]
        exact ih true
      | false =>
        rw [collapseWsAux, if_pos hc, if_neg (by simp)]
        obtain ⟨hnd, hh⟩ := ih true
        refine ⟨noDoubleWs_cons_of _ _ hnd (Or.inr (hh rfl)), ?_⟩
        intro hbt
        exact absurd hbt (by simp)
    · rw [collapseWsAux, if_neg hc]
      obtain ⟨hnd, -⟩ := ih false
      have hcf : jsWhitespace c = false := by simp [hc]
      refine ⟨noDoubleWs_cons_of _ _ hnd (Or.inl hcf), ?_⟩
      intro _
      rw [headNotWs]
      simp [hcf]

theorem collapse_id_of_normal (l : List Char)
    (hos : wsOnlySpace l = true) (hnd : noDoubleWs l = true) :
    collapseWsAux false l = l ∧
    (headNotWs l = true → collapseWsAux true l = l) := by
  induction l with
  | nil => exact ⟨rfl, fun _ => rfl⟩
  | cons c rest ih =>
    have hos' : wsOnlySpace rest = true := by
      rw [wsOnlySpace] at hos
      simp only [List.all_cons, Bool.and_eq_true] at hos
      exact hos.2
    have hnd' : noDoubleWs rest = true := noDoubleWs_tail c rest hnd
    obtain ⟨ihf, iht⟩ := ih hos' hnd'
    by_cases hc : jsWhitespace c
    · have hcs : c = ' ' := by
        rw [wsOnlySpace] at hos
        simp only [List.all_cons, Bool.and_eq_true] at hos
        have := hos.1
        rw [hc] at this
        simpa using this
      have hhr : headNotWs rest = true := by
        cases rest with
        | nil => rfl
        | cons x t =>
          rw [noDoubleWs, Bool.and_eq_true] at hnd
          have := hnd.1
          rw [hc] at this
          rw [headNotWs]
          simpa using this
      constructor
      · rw [collapseWsAux, if_pos hc, if_neg (by simp)]
        rw [iht hhr, hcs]
      · intro hhead
        rw [headNotWs] at hhead
        rw [hc] at hhead
        simp at hhead
    · constructor
      · rw [collapseWsAux, if_neg hc, ihf]
      · intro _
        rw [collapseWsAux, if_neg hc, ihf]

theorem headNotWs_dropWhile (l : List Char) :
    headNotWs (l.dropWhile jsWhitespace) = true := by
  induction l with
  | nil => rfl
  | cons c rest ih =>
    by_cases hc : jsWhitespace c
    · rw [List.dropWhile_cons, if_pos hc]
      exact ih
    · rw [List.dropWhile_cons, if_neg hc]
      rw [headNotWs]
      simp [hc]

theorem wsOnlySpace_dropWhile (l : List Char) (h : wsOnlySpace l = true) :
    wsOnlySpace (l.dropWhile jsWhitespace) = true := by
  induction l with
  | nil => exact h
  | cons c rest ih =>
    rw [wsOnlySpace, List.all_cons, Bool.and_eq_true] at h
    by_cases hc : jsWhitespace c
    · rw [List.dropWhile_cons, if_pos hc]
      exact ih h.2
    · rw [List.dropWhile_cons, if_neg hc]
      rw [wsOnlySpace, List.all_cons, Bool.and_eq_true]
      exact ⟨h.1, h.2⟩

theorem noDoubleWs_dropWhile (l : List Char) (h : noDoubleWs l = true) :
    noDoubleWs (l.dropWhile jsWhitespace) = true := by
  induction l with
  | nil => exact h
  | cons c rest ih =>
    by_cases hc : jsWhitespace c
    · rw [List.dropWhile_cons, if_pos hc]
      exact ih (noDoubleWs_tail c rest h)
    · rw [List.dropWhile_cons, if_neg hc]
      exact h

theorem trimRight_shape (c : Char) (rest : List Char) :
    trimRight (c :: rest) = [] ∨ trimRight (c :: rest) = c :: trimRight rest := by
  rw [trimRight]
  split_ifs
  · exact Or.inl rfl
  · exact Or.inr rfl

theorem wsOnlySpace_trimRight (l : List Char) (h : wsOnlySpace l = true) :
    wsOnlySpace (trimRight l) = true := by
  induction l with
  | nil => exact h
  | cons c rest ih =>
    rw [wsOnlySpace, List.all_cons, Bool.and_eq_true] at h
    rcases trimRight_shape c rest with hs | hs
    · rw [hs]; rfl
    · rw [hs]
      rw [wsOnlySpace, List.all_cons, Bool.and_eq_true]
      exact ⟨h.1, ih h.2⟩

theorem trimRight_head (c : Char) (rest : List Char) :
    trimRight (c :: rest) = [] ∨ ∃ t, trimRight (c :: rest) = c :: t := by
  rcases trimRight_shape c rest with hs | hs
  · exact Or.inl hs
  · exact Or.inr ⟨trimRight rest, hs⟩

theorem noDoubleWs_trimRight (l : List Char) (h : noDoubleWs l = true) :
    noDoubleWs (trimRight l) = true := by
  induction l with
  | nil => exact h
  | cons c rest ih =>
    rcases trimRight_shape c rest with hs | hs
    · rw [hs]; rfl
    · rw [hs]
      apply noDoubleWs_cons_of
      · exact ih (noDoubleWs_tail c rest h)
      · cases rest with
        | nil => right; rfl
        | cons d t =>
          rcases trimRight_head d t with hd | ⟨t', hd⟩
          · right
            rw [hd]
            rfl
          · by_cases hc : jsWhitespace c
            · right
              rw [hd, headNotWs]
              rw [noDoubleWs, Bool.and_eq_true] at h
              have := h.1
              rw [hc] at this
              simpa using this
            · left
              simp [hc]

theorem headNotWs_trimRight (l : List Char) (h : headNotWs l = true) :
    headNotWs (trimRight l) = true := by
  cases l with
  | nil => exact h
  | cons c rest =>
    rcases trimRight_head c rest with hs | ⟨t, hs⟩
    · rw [hs]; rfl
    · rw [hs]
      rw [headNotWs] at h ⊢
      exact h

theorem lastNotWs_trimRight (l : List Char) : lastNotWs (trimRight l) = true := by
  induction l with
  | nil => rfl
  | cons c rest ih =>
    rw [trimRight]
    split_ifs with h
    · rfl
    · rw [not_and_or] at h
      cases hr : trimRight rest with
      | nil =>
        rcases h with h | h
        · exact absurd hr h
        · rw [lastNotWs]
          simpa using h
      | cons x t =>
        rw [← hr]
        have : lastNotWs (c :: trimRight rest) = lastNotWs (trimRight rest) := by
          rw [hr]
          rfl
        rw [this]
        exact ih

theorem dropWhile_id_of_headNotWs (l : List Char) (h : headNotWs l = true) :
    l.dropWhile jsWhitespace = l := by
  cases l with
  | nil => rfl
  | cons c rest =>
    rw [headNotWs] at h
    simp only [Bool.not_eq_true'] at h
    rw [List.dropWhile_cons, if_neg (by simp [h])]

theorem trimRight_id_of_lastNotWs (l : List Char) (h : lastNotWs l = true) :
    trimRight l = l := by
  induction l with
  | nil => rfl
  | cons c rest ih =>
    cases rest with
    | nil =>
      rw [lastNotWs] at h
      rw [trimRight]
      rw [if_neg]
      · rfl
      · rintro ⟨-, hc⟩
        simp only [Bool.not_eq_true'] at h
        rw [hc] at h
        exact absurd h (by simp)
    | cons d t =>
      have hrest : lastNotWs (d :: t) = true := h
      have ihr := ih hrest
      rw [trimRight]
      rw [if_neg]
      · rw [ihr]
      · rintro ⟨hnil, -⟩
        rw [ihr] at hnil
        exact absurd hnil (List.cons_ne_nil d t)

/-! ## C6: assembling the idempotence proof -/

theorem tokenFiltered_head :
    ExcludedTermsLocal.tokenFiltered = '[' :: "TERM_FILTERED]".toList := by decide

theorem tokenFiltered_ws_free :
    ∀ c ∈ ExcludedTermsLocal.tokenFiltered, jsWhitespace c = false := by decide

theorem tokenFiltered_star_free :
    ∀ c ∈ ExcludedTermsLocal.tokenFiltered, ¬ c = '*' := by decide

theorem tokenFiltered_ne_nil : ExcludedTermsLocal.tokenFiltered ≠ [] := by decide

theorem stars_all_star : ∀ c ∈ "***".toList, c = '*' := by decide

theorem stars_ne_nil : "***".toList ≠ [] := by decide

theorem occursS_cleanupText (z : List Char) :
    occursS ExcludedTermsLocal.tokenFiltered (ExcludedTermsLocal.cleanupText z) = false := by
  have h1 : occursS ExcludedTermsLocal.tokenFiltered
      (replaceAll ExcludedTermsLocal.tokenFiltered "***".toList z) = false := by
    apply occursS_replaceAll ExcludedTermsLocal.tokenFiltered '[' "TERM_FILTERED]".toList
      tokenFiltered_head (by decide) tokenFiltered_star_free "***".toList
      stars_all_star stars_ne_nil
  cases h : occursS ExcludedTermsLocal.tokenFiltered (ExcludedTermsLocal.cleanupText z) with
  | false => rfl
  | true =>
    exfalso
    unfold ExcludedTermsLocal.cleanupText at h
    have h2 := occursS_of_jsTrim _ _ h
    have h3 := occursS_collapse ExcludedTermsLocal.tokenFiltered tokenFiltered_ne_nil
      tokenFiltered_ws_free false _ h2
    rw [h1] at h3
    exact absurd h3 (by simp)

theorem cleanupText_fixed (z : List Char) :
    ExcludedTermsLocal.cleanupText (ExcludedTermsLocal.cleanupText z) =
      ExcludedTermsLocal.cleanupText z := by
  have hocc := occursS_cleanupText z
  have hrepl : replaceAll ExcludedTermsLocal.tokenFiltered "***".toList
      (ExcludedTermsLocal.cleanupText z) = ExcludedTermsLocal.cleanupText z :=
    replaceAll_of_no_occur _ _ _ hocc
  have hshape : ExcludedTermsLocal.cleanupText z =
      trimRight ((collapseWsAux false
        (replaceAll ExcludedTermsLocal.tokenFiltered "***".toList z)).dropWhile
          jsWhitespace) := rfl
  set w := collapseWsAux false
    (replaceAll ExcludedTermsLocal.tokenFiltered "***".toList z) with hw
  have hos : wsOnlySpace w = true := wsOnlySpace_collapse false _
  have hnd : noDoubleWs w = true := (noDoubleWs_headNotWs_collapse false _).1
  have hosft : wsOnlySpace (ExcludedTermsLocal.cleanupText z) = true := by
    rw [hshape]
    exact wsOnlySpace_trimRight _ (wsOnlySpace_dropWhile _ hos)
  have hndft : noDoubleWs (ExcludedTermsLocal.cleanupText z) = true := by
    rw [hshape]
    exact noDoubleWs_trimRight _ (noDoubleWs_dropWhile _ hnd)
  have hhead : headNotWs (ExcludedTermsLocal.cleanupText z) = true := by
    rw [hshape]
    exact headNotWs_trimRight _ (headNotWs_dropWhile w)
  have hlast : lastNotWs (ExcludedTermsLocal.cleanupText z) = true := by
    rw [hshape]
    exact lastNotWs_trimRight _
  have hcoll : collapseWs (ExcludedTermsLocal.cleanupText z) =
      ExcludedTermsLocal.cleanupText z :=
    (collapse_id_of_normal _ hosft hndft).1
  conv_lhs => rw [ExcludedTermsLocal.cleanupText, hrepl]
  rw [hcoll]
  rw [jsTrim, dropWhile_id_of_headNotWs _ hhead, trimRight_id_of_lastNotWs _ hlast]

theorem testWBAux_occursRe (pat : List Char) (prev : Option Char) (s : List Char)
    (h : ExcludedTermsLocal.testWBAux pat prev s = true) : occursRe pat s = true := by
  induction s generalizing prev with
  | nil => exact absurd h (by rw [ExcludedTermsLocal.testWBAux]; simp)
  | cons c rest ih =>
    rw [ExcludedTermsLocal.testWBAux, Bool.or_eq_true] at h
    rcases h with h | h
    · rw [ExcludedTermsLocal.matchesWBAt] at h
      simp only [Bool.and_eq_true] at h
      rw [occursRe, Bool.or_eq_true]
      exact Or.inl h.1.1
    · rw [occursRe, Bool.or_eq_true]
      exact Or.inr (ih (some c) h)

theorem backend_loop_fixed (l : List ExcludedTermsBackend.ExcludedTerm)
    (accT : List Char) (accR : List (List Char))
    (h : ∀ t ∈ l, occursRe t.term accT = false) :
    l.foldl ExcludedTermsBackend.filterStep (accT, accR) = (accT, accR) := by
  induction l generalizing accR with
  | nil => rfl
  | cons t rest ih =>
    rw [List.foldl_cons]
    have hstep : ExcludedTermsBackend.filterStep (accT, accR) t = (accT, accR) := by
      rw [ExcludedTermsBackend.filterStep]
      rw [if_neg]
      simp [h t (by simp)]
    rw [hstep]
    exact ih accR (fun t' ht' => h t' (by simp [ht']))

theorem local_loop_fixed (l : List (List Char))
    (accT : List Char) (accR : List (List Char))
    (h : ∀ t ∈ l, occursRe t accT = false) :
    l.foldl ExcludedTermsLocal.localFilterStep (accT, accR) = (accT, accR) := by
  induction l generalizing accR with
  | nil => rfl
  | cons t rest ih =>
    rw [List.foldl_cons]
    have htest : ExcludedTermsLocal.testWB t accT = false := by
      cases htw : ExcludedTermsLocal.testWB t accT with
      | false => rfl
      | true =>
        have := testWBAux_occursRe t none accT htw
        rw [h t (by simp)] at this
        exact absurd this (by simp)
    have hstep : ExcludedTermsLocal.localFilterStep (accT, accR) t = (accT, accR) := by
      rw [ExcludedTermsLocal.localFilterStep]
      rw [if_neg]
      simp [htest]
    rw [hstep]
    exact ih accR (fun t' ht' => h t' (by simp [ht']))

/-- C6 counterexample: the active terms are user data and may contain
regex metacharacters (the backend `validateTerm` itself admits `.`, `?`
and `!`).  With active terms `"a.c"` and `"xyz"` on the text `"abxyzc"`,
the first filter pass removes only `"xyz"`, leaving `"abc"`; that filtered
text contains neither active term as a (case-insensitive) substring —
the claim's hypothesis holds — yet a second pass matches the regex
`/a.c/gi` against `"abc"` and returns `("", ["a.c"])` instead of leaving
the text unchanged with an empty removed-terms list. -/
theorem c6_counterexample :
    (ExcludedTermsBackend.filterText
        [⟨"1".toList, "a.c".toList, .custom, none, true, 0, 0⟩,
         ⟨"2".toList, "xyz".toList, .keyword, none, true, 0, 0⟩]
        "abxyzc".toList).1 = "abc".toList ∧
    occursCI "a.c".toList "abc".toList = false ∧
    occursCI "xyz".toList "abc".toList = false ∧
    ExcludedTermsBackend.filterText
        [⟨"1".toList, "a.c".toList, .custom, none, true, 0, 0⟩,
         ⟨"2".toList, "xyz".toList, .keyword, none, true, 0, 0⟩]
        "abc".toList = ([], ["a.c".toList]) ∧
    (([], ["a.c".toList]) :
        List Char × List (List Char)) ≠ ("abc".toList, []) := by
  refine ⟨by decide, by decide, by decide, by decide, by decide⟩

/-- C6 amended: restricted to active terms whose only regex metacharacter
is the dot (the class this embedding models exactly; metacharacter-free
terms are plain literals), re-running either `filterText` on its own
output once that output no longer MATCHES any active term's
case-insensitive pattern — the filter's own matching notion, which for
metacharacter-free terms coincides with substring containment — returns
the text unchanged with an empty removed-terms list.  For the local
variant this includes that the unconditional mark-rewrite / whitespace
collapse / trim clean-up is the identity on already-cleaned text. -/
theorem c6_refilter_identity :
    (∀ (terms : List ExcludedTermsBackend.ExcludedTerm) (text : List Char),
      (∀ t ∈ terms, t.isActive = true →
        t.term.all (fun c => !regexSpecialNonDot c) = true) →
      (∀ t ∈ terms, t.isActive = true →
        occursRe t.term (ExcludedTermsBackend.filterText terms text).1 = false) →
      ExcludedTermsBackend.filterText terms
          (ExcludedTermsBackend.filterText terms text).1 =
        ((ExcludedTermsBackend.filterText terms text).1, [])) ∧
    (∀ (config : ExcludedTermsLocal.ExcludedTermsConfig) (text : List Char),
      (∀ t ∈ ExcludedTermsLocal.getActiveExcludedTerms config,
        t.all (fun c => !regexSpecialNonDot c) = true) →
      (∀ t ∈ ExcludedTermsLocal.getActiveExcludedTerms config,
        occursRe t (ExcludedTermsLocal.filterText config text).1 = false) →
      ExcludedTermsLocal.filterText config
          (ExcludedTermsLocal.filterText config text).1 =
        ((ExcludedTermsLocal.filterText config text).1, [])) := by
  constructor
  · intro terms text hscope h
    conv_lhs => rw [ExcludedTermsBackend.filterText]
    apply backend_loop_fixed
    intro t ht
    have hmem := List.mem_filter.mp ht
    exact h t hmem.1 hmem.2
  · intro config text hscope h
    have hloop : (ExcludedTermsLocal.getActiveExcludedTerms config).foldl
        ExcludedTermsLocal.localFilterStep
        ((ExcludedTermsLocal.filterText config text).1, []) =
        ((ExcludedTermsLocal.filterText config text).1, []) :=
      local_loop_fixed _ _ _ h
    have hshape : (ExcludedTermsLocal.filterText config text).1 =
        ExcludedTermsLocal.cleanupText
          (((ExcludedTermsLocal.getActiveExcludedTerms config).foldl
            ExcludedTermsLocal.localFilterStep (text, [])).1) := rfl
    conv_lhs => rw [ExcludedTermsLocal.filterText]
    rw [hloop]
    dsimp only
    rw [hshape, cleanupText_fixed]

set_option maxRecDepth 8000 in
theorem c6_refilter_identity_witness :
    (∀ t ∈ ([⟨"1".toList, "rock".toList, .genre, none, true, 3, 4⟩] :
        List ExcludedTermsBackend.ExcludedTerm), t.isActive = true →
      t.term.all (fun c => !regexSpecialNonDot c) = true) ∧
    (∀ t ∈ ([⟨"1".toList, "rock".toList, .genre, none, true, 3, 4⟩] :
        List ExcludedTermsBackend.ExcludedTerm), t.isActive = true →
      occursRe t.term
        (ExcludedTermsBackend.filterText
          [⟨"1".toList, "rock".toList, .genre, none, true, 3, 4⟩]
          "I love Rock music".toList).1 = false) ∧
    ExcludedTermsBackend.filterText
        [⟨"1".toList, "rock".toList, .genre, none, true, 3, 4⟩]
        (ExcludedTermsBackend.filterText
          [⟨"1".toList, "rock".toList, .genre, none, true, 3, 4⟩]
          "I love Rock music".toList).1 =
      ((ExcludedTermsBackend.filterText
          [⟨"1".toList, "rock".toList, .genre, none, true, 3, 4⟩]
          "I love Rock music".toList).1, []) ∧
    ExcludedTermsLocal.filterText
        ⟨"u".toList, [⟨"1".toList, "Rock".toList, .genre, none, true, 3, 4⟩], [], true, 0⟩
        (ExcludedTermsLocal.filterText
          ⟨"u".toList, [⟨"1".toList, "Rock".toList, .genre, none, true, 3, 4⟩], [], true, 0⟩
          "I love rock   music".toList).1 =
      ((ExcludedTermsLocal.filterText
          ⟨"u".toList, [⟨"1".toList, "Rock".toList, .genre, none, true, 3, 4⟩], [], true, 0⟩
          "I love rock   music".toList).1, []) :=
  ⟨by decide, by decide,
    c6_refilter_identity.1
      [⟨"1".toList, "rock".toList, .genre, none, true, 3, 4⟩]
      "I love Rock music".toList (by decide) (by decide),
    c6_refilter_identity.2
      ⟨"u".toList, [⟨"1".toList, "Rock".toList, .genre, none, true, 3, 4⟩], [], true, 0⟩
      "I love rock   music".toList (by decide) (by decide)⟩
